import Mathlib

/-!
# Verification of the `RobotArm` teleoperation control loop

Shallow embedding of `dual_arm_teleop/src/robot_arm.cpp`.

Modelling conventions.

* `double` and `float` values are idealised as exact rationals (`ℚ`): every
  arithmetic operation of the source is read without rounding.  The literal
  `.7` is read as `7/10`, whereas the source compares with the binary64 value
  nearest to it.  Rounding is not modelled: the verdict of a comparison whose
  operands lie within rounding error of each other can differ from the
  source's, so nothing is stated here about the exact boundary of the
  threshold of `armWithinDelta`.
* `sqrt` is never evaluated: the two places that use it only compare a square
  root with another value, and the comparison is decided on the radicand
  (`sqrt_lt`).  Theorem `sqrt_lt_iff` relates it to `Real.sqrt`.
* `Eigen::Affine3d` is the pair of its `linear()` block and its
  `translation()` column.
* Reading a `std::vector` outside its bounds is undefined in the source; the
  model reads a default value there.
* `assert` failures abort the call: `none`.
* Log output (`std::cout`, `std::cerr`) is not modelled.
-/

namespace ViveTeleop

/-! ## Eigen -/

/-- Model of `Eigen::Vector3d`. -/
@[ext] structure Vector3d where
  x : ℚ
  y : ℚ
  z : ℚ
deriving DecidableEq, Repr, Inhabited

/-- Model of `Eigen::Matrix3d`; `mIJ` is the coefficient of row `I`, column `J`. -/
@[ext] structure Matrix3d where
  m00 : ℚ
  m01 : ℚ
  m02 : ℚ
  m10 : ℚ
  m11 : ℚ
  m12 : ℚ
  m20 : ℚ
  m21 : ℚ
  m22 : ℚ
deriving DecidableEq, Repr, Inhabited

/-- Model of `Eigen::Quaterniond`, with the coefficient names of Eigen. -/
@[ext] structure Quaterniond where
  w : ℚ
  x : ℚ
  y : ℚ
  z : ℚ
deriving DecidableEq, Repr, Inhabited

/-- Model of `Eigen::Affine3d`: the `linear()` block and the `translation()` column. -/
@[ext] structure Affine3d where
  linear : Matrix3d
  translation : Vector3d
deriving DecidableEq, Repr, Inhabited

/-- Vector sum `a + b`. -/
def Vector3d.add (a b : Vector3d) : Vector3d :=
  ⟨a.x + b.x, a.y + b.y, a.z + b.z⟩

/-- Vector difference `a - b`. -/
def Vector3d.sub (a b : Vector3d) : Vector3d :=
  ⟨a.x - b.x, a.y - b.y, a.z - b.z⟩

/-- The zero vector. -/
def Vector3d.zero : Vector3d := ⟨0, 0, 0⟩

/-- Model of `Eigen::Matrix3d::Identity()`. -/
def Matrix3d.Identity : Matrix3d := ⟨1, 0, 0, 0, 1, 0, 0, 0, 1⟩

/-- Matrix product `a * b`. -/
def Matrix3d.mul (a b : Matrix3d) : Matrix3d :=
  ⟨a.m00 * b.m00 + a.m01 * b.m10 + a.m02 * b.m20,
   a.m00 * b.m01 + a.m01 * b.m11 + a.m02 * b.m21,
   a.m00 * b.m02 + a.m01 * b.m12 + a.m02 * b.m22,
   a.m10 * b.m00 + a.m11 * b.m10 + a.m12 * b.m20,
   a.m10 * b.m01 + a.m11 * b.m11 + a.m12 * b.m21,
   a.m10 * b.m02 + a.m11 * b.m12 + a.m12 * b.m22,
   a.m20 * b.m00 + a.m21 * b.m10 + a.m22 * b.m20,
   a.m20 * b.m01 + a.m21 * b.m11 + a.m22 * b.m21,
   a.m20 * b.m02 + a.m21 * b.m12 + a.m22 * b.m22⟩

/-- Matrix-vector product `a * v`. -/
def Matrix3d.mulVec (a : Matrix3d) (v : Vector3d) : Vector3d :=
  ⟨a.m00 * v.x + a.m01 * v.y + a.m02 * v.z,
   a.m10 * v.x + a.m11 * v.y + a.m12 * v.z,
   a.m20 * v.x + a.m21 * v.y + a.m22 * v.z⟩

/-- The determinant as Eigen's 3x3 inverse computes it: the first column of
cofactors times the first column of the matrix. -/
def Matrix3d.determinant (m : Matrix3d) : ℚ :=
  (m.m11 * m.m22 - m.m12 * m.m21) * m.m00
    + (m.m21 * m.m02 - m.m22 * m.m01) * m.m10
    + (m.m01 * m.m12 - m.m02 * m.m11) * m.m20

/-- Model of `Eigen::Matrix3d::inverse()`: Eigen's fixed-size 3x3 inverse, the
transposed cofactor matrix times `1 / det`.  (With a zero determinant the
source produces non-finite entries; the model, dividing in `ℚ`, produces
zeros.) -/
def Matrix3d.inverse (m : Matrix3d) : Matrix3d :=
  let invdet : ℚ := 1 / m.determinant
  ⟨(m.m11 * m.m22 - m.m12 * m.m21) * invdet,
   (m.m21 * m.m02 - m.m22 * m.m01) * invdet,
   (m.m01 * m.m12 - m.m02 * m.m11) * invdet,
   (m.m12 * m.m20 - m.m10 * m.m22) * invdet,
   (m.m22 * m.m00 - m.m20 * m.m02) * invdet,
   (m.m02 * m.m10 - m.m00 * m.m12) * invdet,
   (m.m10 * m.m21 - m.m11 * m.m20) * invdet,
   (m.m20 * m.m01 - m.m21 * m.m00) * invdet,
   (m.m00 * m.m11 - m.m01 * m.m10) * invdet⟩

/-- Model of `Eigen::Quaterniond::toRotationMatrix()`. -/
def Quaterniond.toRotationMatrix (q : Quaterniond) : Matrix3d :=
  let tx := 2 * q.x
  let ty := 2 * q.y
  let tz := 2 * q.z
  let twx := tx * q.w
  let twy := ty * q.w
  let twz := tz * q.w
  let txx := tx * q.x
  let txy := ty * q.x
  let txz := tz * q.x
  let tyy := ty * q.y
  let tyz := tz * q.y
  let tzz := tz * q.z
  ⟨1 - (tyy + tzz), txy - twz, txz + twy,
   txy + twz, 1 - (txx + tzz), tyz - twx,
   txz - twy, tyz + twx, 1 - (txx + tyy)⟩

/-- Model of `Eigen::Affine3d::Identity()`. -/
def Affine3d.Identity : Affine3d := ⟨Matrix3d.Identity, Vector3d.zero⟩

/-- Model of `Eigen::Affine3d::translate`: `translation() += linear() * other`. -/
def Affine3d.translate (t : Affine3d) (other : Vector3d) : Affine3d :=
  { t with translation := t.translation.add (t.linear.mulVec other) }

/-- Model of `Eigen::Affine3d::rotate`: `linear() *= rotation.toRotationMatrix()`. -/
def Affine3d.rotate (t : Affine3d) (rotation : Quaterniond) : Affine3d :=
  { t with linear := t.linear.mul rotation.toRotationMatrix }

/-- Model of `Eigen::Affine3d::inverse()` (affine mode): the linear block is inverted as
a general matrix, the translation is `-(linear⁻¹ * translation)`. -/
def Affine3d.inverse (t : Affine3d) : Affine3d :=
  let l := t.linear.inverse
  ⟨l, Vector3d.zero.sub (l.mulVec t.translation)⟩

/-! ### Reading in Mathlib

The statements about poses are made on the matrices and vectors of Mathlib,
with its product, its inverse and its subtraction. -/

/-- The matrix of Mathlib with the coefficients of a `Matrix3d`. -/
def Matrix3d.toMatrix (m : Matrix3d) : Matrix (Fin 3) (Fin 3) ℚ :=
  !![m.m00, m.m01, m.m02; m.m10, m.m11, m.m12; m.m20, m.m21, m.m22]

/-- The vector of Mathlib with the coefficients of a `Vector3d`. -/
def Vector3d.toVec (v : Vector3d) : Fin 3 → ℚ := ![v.x, v.y, v.z]

/-! ## Messages -/

/-- Model of `geometry_msgs::Point`. -/
structure Point where
  x : ℚ
  y : ℚ
  z : ℚ
deriving DecidableEq, Repr, Inhabited

/-- Model of `geometry_msgs::Quaternion`. -/
structure Quaternion where
  x : ℚ
  y : ℚ
  z : ℚ
  w : ℚ
deriving DecidableEq, Repr, Inhabited

/-- Model of `geometry_msgs::Pose`. -/
structure Pose where
  position : Point
  orientation : Quaternion
deriving DecidableEq, Repr, Inhabited

/-- Model of `sensor_msgs::Joy` (the fields the arm reads). -/
structure Joy where
  axes : List ℚ
  buttons : List Int
deriving DecidableEq, Repr, Inhabited

/-- Model of `vive_msgs::Controller`; `pose` is `posestamped.pose`. -/
structure Controller where
  id : Int
  pose : Pose
  joystick : Joy
deriving DecidableEq, Repr, Inhabited

/-- Model of `vive_msgs::ViveSystem` (the field the arm reads). -/
structure ViveSystem where
  controllers : List Controller
deriving DecidableEq, Repr, Inhabited

/-- Model of `victor_hardware_interface::JointValueQuantity`. -/
structure JointValueQuantity where
  joint_1 : ℚ
  joint_2 : ℚ
  joint_3 : ℚ
  joint_4 : ℚ
  joint_5 : ℚ
  joint_6 : ℚ
  joint_7 : ℚ
deriving DecidableEq, Repr, Inhabited

/-- Model of `victor_hardware_interface::MotionCommand` (the fields the arm writes);
`control_mode` is `control_mode.mode`. -/
structure MotionCommand where
  control_mode : Int
  joint_position : JointValueQuantity
deriving DecidableEq, Repr, Inhabited

/-- Model of `victor_hardware_interface::Robotiq3FingerActuatorCommand`. -/
structure Robotiq3FingerActuatorCommand where
  position : ℚ
  speed : ℚ
  force : ℚ
deriving DecidableEq, Repr, Inhabited

/-- Model of `victor_hardware_interface::Robotiq3FingerCommand`. -/
structure Robotiq3FingerCommand where
  finger_a_command : Robotiq3FingerActuatorCommand
  finger_b_command : Robotiq3FingerActuatorCommand
  finger_c_command : Robotiq3FingerActuatorCommand
  scissor_command : Robotiq3FingerActuatorCommand
deriving DecidableEq, Repr, Inhabited

/-- The child frames `control` broadcasts on tf, by the suffix of their
name. -/
inductive Frame where
  | controller_global
  | controller_reset
  | ee_last_valid
  | ee_target
  | controller_frame_diff
deriving DecidableEq, Repr

/-- What one call of `control` sends out, in order: `pub_arm.publish`,
`pub_gripper.publish` and `tf_broadcaster.sendTransform`; a tf entry carries
the Eigen pose handed to `tf::poseEigenToTF`. -/
inductive Publication where
  | arm (msg : MotionCommand)
  | gripper (msg : Robotiq3FingerCommand)
  | tf (frame : Frame) (pose : Affine3d)
deriving DecidableEq, Repr

/-! ## Square roots

The source takes `sqrt` of a sum of squares and only ever compares the result.
The comparisons are decided on the radicands. -/

/-- Decides `sqrt s < t` over the exact values: true exactly when `t` is
positive and `s < t * t`.  The rounding of `sqrt` and of its argument in the
source is not modelled. -/
def sqrt_lt (s t : ℚ) : Bool := decide (0 < t ∧ s < t * t)

/-- Decides `sqrt s < sqrt t` for non-negative `s`. -/
def sqrt_lt_sqrt (s t : ℚ) : Bool := decide (s < t)

/-- The accumulation loop shared by the two joint-space distances:
`distance += pow(a[i] - b[i], 2)` over the common indices, from the running
value `distance`. -/
def accumulateSquares : List ℚ → List ℚ → ℚ → ℚ
  | a :: as, b :: bs, distance => accumulateSquares as bs (distance + (a - b) ^ 2)
  | _, _, distance => distance

/-! ## `std::priority_queue`

The queue is built from a range and only `top()` is read.  The constructor
copies the range into a vector and calls `std::make_heap`; `top()` is the front
of that vector.  `make_heap` follows the GNU libstdc++ algorithm
(`bits/stl_heap.h`), on which the repository is built.  The two `while` loops
carry a fuel argument, `len` for the descent and the hole index for the
ascent; the loops have ended before it is exhausted (`push_heap_fuel`,
`adjust_heap_descend_fuel`). -/

section Heap

variable {α : Type}

/-- Model of `std::__push_heap(first, holeIndex, topIndex, value, comp)`. -/
def push_heap (comp : α → α → Bool) : Nat → List α → Nat → Nat → α → List α
  | 0, v, holeIndex, _, value => v.set holeIndex value
  | fuel + 1, v, holeIndex, topIndex, value =>
    let parent := (holeIndex - 1) / 2
    if holeIndex > topIndex ∧ comp (v.getD parent value) value = true then
      push_heap comp fuel (v.set holeIndex (v.getD parent value)) parent topIndex value
    else
      v.set holeIndex value

/-- The first loop of `std::__adjust_heap`: the hole descends along the
preferred children down to a node without two children.  At the loop test
`holeIndex` equals `secondChild`; the result is the vector and that index. -/
def adjust_heap_descend (comp : α → α → Bool) (len : Nat) :
    Nat → List α → Nat → α → List α × Nat
  | 0, v, secondChild, _ => (v, secondChild)
  | fuel + 1, v, secondChild, value =>
    if secondChild < (len - 1) / 2 then
      let holeIndex := secondChild
      let secondChild := 2 * (secondChild + 1)
      let secondChild :=
        if comp (v.getD secondChild value) (v.getD (secondChild - 1) value) = true then
          secondChild - 1
        else secondChild
      adjust_heap_descend comp len fuel (v.set holeIndex (v.getD secondChild value))
        secondChild value
    else
      (v, secondChild)

/-- Model of `std::__adjust_heap(first, holeIndex, len, value, comp)`. -/
def adjust_heap (comp : α → α → Bool) (v : List α) (holeIndex len : Nat) (value : α) :
    List α :=
  let topIndex := holeIndex
  let r := adjust_heap_descend comp len len v holeIndex value
  let v := r.1
  let secondChild := r.2
  let holeIndex := secondChild
  if len % 2 = 0 ∧ secondChild = (len - 2) / 2 then
    let secondChild := 2 * (secondChild + 1)
    let v := v.set holeIndex (v.getD (secondChild - 1) value)
    let holeIndex := secondChild - 1
    push_heap comp holeIndex v holeIndex topIndex value
  else
    push_heap comp holeIndex v holeIndex topIndex value

/-- The loop of `std::__make_heap`, from `parent` down to `0`. -/
def make_heap_loop (comp : α → α → Bool) (len : Nat) : Nat → List α → List α
  | 0, v =>
    match v[0]? with
    | some value => adjust_heap comp v 0 len value
    | none => v
  | parent + 1, v =>
    match v[parent + 1]? with
    | some value => make_heap_loop comp len parent (adjust_heap comp v (parent + 1) len value)
    | none => v

/-- Model of `std::make_heap(first, last, comp)`. -/
def make_heap (comp : α → α → Bool) (v : List α) : List α :=
  if v.length < 2 then v
  else make_heap_loop comp v.length ((v.length - 2) / 2) v

/-- Model of `std::priority_queue(first, last, comp).top()`. -/
def priority_queue_top (comp : α → α → Bool) (v : List α) : Option α :=
  (make_heap comp v).head?

end Heap

/-- Modelled from the spec: `SeedDistanceFunctor` is declared in `robot_arm.h`,
which is not among the sources.  The spec (4.5) orders candidates by their
Euclidean distance to the seed, "sum of squared per-joint differences,
square-rooted", and asks for a min-priority selection; as the comparison of a
`std::priority_queue`, whose top is a greatest element, that is
`distance(a, seed) > distance(b, seed)`. -/
def SeedDistanceFunctor (seed : List ℚ) (a b : List ℚ) : Bool :=
  sqrt_lt_sqrt (accumulateSquares b seed 0) (accumulateSquares a seed 0)

/-- Modelled from the spec: the non-strict reading of the comparison of
`SeedDistanceFunctor`, `distance(a, seed) >= distance(b, seed)`.  The header
that declares the functor is not among the sources and the spec (4.5) does not
say whether the comparison is strict; `control` is modelled with the strict
one, and what is proved of the selection is proved of both. -/
def SeedDistanceFunctorOrEqual (seed : List ℚ) (a b : List ℚ) : Bool :=
  !(sqrt_lt_sqrt (accumulateSquares a seed 0) (accumulateSquares b seed 0))

/-! ## `RobotArm` -/

/-- The inverse-kinematics oracle: the target pose of the end effector in the
robot frame and the seed give the list of solutions, in the order the solver
returns them.  It stands for `setToIKSolverFrame`, the change to the solver
frame, the conversion to a pose message and `solver->getPositionIK` with
`ALL_DISCRETIZED`. -/
abbrev KinematicsBase := Affine3d → List ℚ → List (List ℚ)

/-- The state of a `RobotArm`.  `joint_values` are the positions of the arm's
joint group held by `kinematic_state`. -/
structure RobotArm where
  controller_hand : Int
  enabled : Bool
  initialized : Bool
  trackpad_pressed : Bool
  ee_last_valid_pose : Affine3d
  controller_last_pose : Affine3d
  controller_frame_diff_pose : Affine3d
  joint_position_measured : List ℚ
  joint_values : List ℚ
deriving DecidableEq, Repr

/-- Model of `RobotArm::jvqToVector`. -/
def jvqToVector (jvq : JointValueQuantity) : List ℚ :=
  [jvq.joint_1, jvq.joint_2, jvq.joint_3, jvq.joint_4, jvq.joint_5, jvq.joint_6, jvq.joint_7]

/-- Model of `RobotArm::updateMeasuredState`. -/
def updateMeasuredState (self : RobotArm) (measured_joint_position : JointValueQuantity) :
    RobotArm :=
  { self with joint_position_measured := jvqToVector measured_joint_position }

/-- Model of `RobotArm::armWithinDelta`; `none` when the assertion on the sizes
fails.  The sum, the square root and the threshold `.7` are read exactly, so
the result agrees with the source's away from the threshold and can differ
from it for a distance within rounding error of `0.7`. -/
def armWithinDelta (joint_position_measured joint_position_commanded : List ℚ) :
    Option Bool :=
  if joint_position_commanded.length = joint_position_measured.length then
    let distance := accumulateSquares joint_position_commanded joint_position_measured 0
    some (sqrt_lt distance (7 / 10))
  else
    none

/-- Model of `RobotArm::translationAndRotationToAffine`. -/
def translationAndRotationToAffine (translation : Vector3d) (rotation : Quaterniond) :
    Affine3d :=
  (Affine3d.Identity.translate translation).rotate rotation

/-- Model of `RobotArm::viveToVictorTranslation`. -/
def viveToVictorTranslation (vive : Vector3d) : Vector3d :=
  ⟨-vive.z, -vive.x, vive.y⟩

/-- Model of `RobotArm::viveToVictorRotation`; the arguments of the constructor of
`Eigen::Quaterniond` are `w, x, y, z`. -/
def viveToVictorRotation (vive : Quaterniond) : Quaterniond :=
  { w := vive.x, x := vive.w, y := -vive.y, z := -vive.z }

/-- Model of `RobotArm::pointMsgToEigen`. -/
def pointMsgToEigen (point : Point) : Vector3d :=
  ⟨point.x, point.y, point.z⟩

/-- Model of `RobotArm::quatMsgToEigen`: the source calls
`Eigen::Quaterniond(quaternion.x, quaternion.y, quaternion.z, quaternion.w)`,
and the arguments of that constructor are `w, x, y, z`. -/
def quatMsgToEigen (quaternion : Quaternion) : Quaterniond :=
  { w := quaternion.x, x := quaternion.y, y := quaternion.z, z := quaternion.w }

/-- Model of `RobotArm::poseMsgToEigen`. -/
def poseMsgToEigen (pose : Pose) : Affine3d :=
  translationAndRotationToAffine (pointMsgToEigen pose.position)
    (quatMsgToEigen pose.orientation)

/-- The loop of `control` that finds the assigned controller: `i` is the
index of the head of the remaining list, `assigned_controller_index` the
running value (`-1` at the start).  Every match overwrites it. -/
def findAssignedControllerIndex (controller_hand : Int) :
    List Controller → Nat → Int → Int
  | [], _, assigned_controller_index => assigned_controller_index
  | c :: rest, i, assigned_controller_index =>
    findAssignedControllerIndex controller_hand rest (i + 1)
      (if c.id = controller_hand then (i : Int) else assigned_controller_index)

/-- Lines 54-58 of `control`: the activation toggle and the record of the
trackpad button. -/
def toggleActivation (self : RobotArm) (msg_controller : Controller) : RobotArm :=
  let enabled :=
    if msg_controller.joystick.buttons.getD 2 0 = 2 ∧ self.trackpad_pressed = false then
      !self.enabled
    else self.enabled
  { self with
    enabled := enabled
    trackpad_pressed := decide (msg_controller.joystick.buttons.getD 2 0 = 2) }

/-- Lines 68-76 of `control`: store the reset and frame-diff poses. -/
def storeReset (self : RobotArm) (msg_controller : Controller) (controller_pose : Affine3d) :
    RobotArm :=
  if msg_controller.joystick.buttons.getD 1 0 = 2 ∨ self.initialized = false then
    { self with
      controller_frame_diff_pose :=
        { self.controller_frame_diff_pose with linear := controller_pose.linear }
      controller_last_pose := controller_pose
      initialized := true }
  else self

/-- Lines 79-81 of `control`: the pose `controller_delta_pose`. -/
def controllerDeltaPose (self : RobotArm) (controller_pose : Affine3d) : Affine3d :=
  { linear := controller_pose.inverse.linear.mul self.controller_last_pose.linear
    translation :=
      self.controller_frame_diff_pose.linear.mulVec
        (controller_pose.translation.sub self.controller_last_pose.translation) }

/-- Lines 84-86 of `control`: the pose `ee_target_pose`. -/
def eeTargetPose (self : RobotArm) (controller_delta_pose : Affine3d) : Affine3d :=
  { linear := controller_delta_pose.linear.mul self.ee_last_valid_pose.linear
    translation := self.ee_last_valid_pose.translation.add controller_delta_pose.translation }

/-- Lines 121-129 of `control`: pick the solution closest to the measured
joint state and commit the poses. -/
def pickSolution (self : RobotArm) (seed : List ℚ) (solutions : List (List ℚ))
    (ee_target_pose controller_pose : Affine3d) : RobotArm :=
  if solutions.isEmpty then self
  else
    { self with
      joint_values := (priority_queue_top (SeedDistanceFunctor seed) solutions).getD []
      ee_last_valid_pose := ee_target_pose
      controller_last_pose := controller_pose }

/-- Lines 134-146 of `control`: the arm command read back from
`kinematic_state`. -/
def armCommand (joint_values : List ℚ) : MotionCommand :=
  { control_mode := 2
    joint_position :=
      { joint_1 := joint_values.getD 0 0
        joint_2 := joint_values.getD 1 0
        joint_3 := joint_values.getD 2 0
        joint_4 := joint_values.getD 3 0
        joint_5 := joint_values.getD 4 0
        joint_6 := joint_values.getD 5 0
        joint_7 := joint_values.getD 6 0 } }

/-- Lines 149-174 of `control`: the gripper command. -/
def gripperCommand (msg_controller : Controller) : Robotiq3FingerCommand :=
  let scissor : Robotiq3FingerActuatorCommand := { speed := 1, force := 1, position := 1 }
  let finger_a : Robotiq3FingerActuatorCommand :=
    { speed := 1, force := 1, position := msg_controller.joystick.axes.getD 2 0 }
  let finger_b : Robotiq3FingerActuatorCommand :=
    { speed := 1, force := 1, position := msg_controller.joystick.axes.getD 2 0 }
  let finger_c : Robotiq3FingerActuatorCommand :=
    { speed := 1, force := 1, position := msg_controller.joystick.axes.getD 2 0 }
  { scissor_command := scissor
    finger_a_command := finger_a
    finger_b_command := finger_b
    finger_c_command := finger_c }

/-- Model of `RobotArm::control` from line 54 on, once the assigned controller
`msg_controller` is found: the new state and what the call sends out, in
order; `none` when the assertion of `armWithinDelta` fails. -/
def controlAssigned (solver : KinematicsBase) (self : RobotArm) (msg_controller : Controller) :
    Option (RobotArm × List Publication) :=
  -- Toggle activation status
  let self := toggleActivation self msg_controller
  -- Skip control if not enabled
  if self.enabled = false then some (self, [])
  else
    let controller_pose := poseMsgToEigen msg_controller.pose
    -- Store reset and frame diff poses
    let self := storeReset self msg_controller controller_pose
    let controller_delta_pose := controllerDeltaPose self controller_pose
    let ee_target_pose := eeTargetPose self controller_delta_pose
    let self := { self with controller_last_pose := controller_pose }
    -- Generate IK solutions
    let seed := self.joint_position_measured
    let solutions := solver ee_target_pose seed
    let self := pickSolution self seed solutions ee_target_pose controller_pose
    let msg_out_arm := armCommand self.joint_values
    let msg_out_gripper := gripperCommand msg_controller
    -- Publish state messages
    match armWithinDelta self.joint_position_measured
        (jvqToVector msg_out_arm.joint_position) with
    | none => none
    | some within =>
      some (self,
        (if within = true then [Publication.arm msg_out_arm] else [])
          ++ [Publication.gripper msg_out_gripper,
              Publication.tf Frame.controller_global controller_pose,
              Publication.tf Frame.controller_reset self.controller_last_pose,
              Publication.tf Frame.ee_last_valid self.ee_last_valid_pose,
              Publication.tf Frame.ee_target ee_target_pose,
              Publication.tf Frame.controller_frame_diff self.controller_frame_diff_pose])

/-- Model of `RobotArm::control`: lines 27-52 find the assigned controller, the rest is
`controlAssigned`.  A call that returns early sends nothing. -/
def control (solver : KinematicsBase) (self : RobotArm) (msg : ViveSystem) :
    Option (RobotArm × List Publication) :=
  -- If controller hand is invalid, stop
  if self.controller_hand ≠ 1 ∧ self.controller_hand ≠ 2 then some (self, [])
  else
    -- Find the controller index who's hand we've been assigned
    let assigned_controller_index :=
      findAssignedControllerIndex self.controller_hand msg.controllers 0 (-1)
    -- If there's no match, don't continue
    if assigned_controller_index = -1 then some (self, [])
    else
      controlAssigned solver self (msg.controllers.getD assigned_controller_index.toNat default)

/-! ## Vocabulary of the statements -/

/-- The controller of a sample that an arm of hand `controller_hand` is
assigned: the last one in the list whose id is that hand. -/
def matchedController (controller_hand : Int) : List Controller → Option Controller
  | [] => none
  | c :: rest =>
    match matchedController controller_hand rest with
    | some d => some d
    | none => if c.id = controller_hand then some c else none

/-- Whether the trackpad button `buttons[2]` of a controller is pressed. -/
def trackpadPressed (c : Controller) : Bool :=
  decide (c.joystick.buttons.getD 2 0 = 2)

/-- Whether the reset button `buttons[1]` of a controller is pressed. -/
def resetPressed (c : Controller) : Bool :=
  decide (c.joystick.buttons.getD 1 0 = 2)

/-- The trackpad button of the matched controller of a sample (`false` when
no controller matches). -/
def sampleTrackpad (controller_hand : Int) (msg : ViveSystem) : Bool :=
  match matchedController controller_hand msg.controllers with
  | some c => trackpadPressed c
  | none => false

/-- The states after each sample of a sequence handed to `control` in
order. -/
def controlTrace (solver : KinematicsBase) : RobotArm → List ViveSystem → Option (List RobotArm)
  | _, [] => some []
  | self, msg :: rest =>
    match control solver self msg with
    | none => none
    | some r =>
      match controlTrace solver r.1 rest with
      | none => none
      | some states => some (r.1 :: states)

/-- Number of changes of value along `e, es₀, es₁, …`. -/
def toggleCount : Bool → List Bool → Nat
  | _, [] => 0
  | e, e1 :: es => (if e1 = e then 0 else 1) + toggleCount e1 es

/-- Number of not-pressed-to-pressed transitions along `prev, ps₀, ps₁, …`. -/
def risingEdges : Bool → List Bool → Nat
  | _, [] => 0
  | prev, p :: ps => (if p = true ∧ prev = false then 1 else 0) + risingEdges p ps

/-- Sum of the squared per-joint differences of two joint vectors; its
square root is their Euclidean distance. -/
def squaredDistance (a b : List ℚ) : ℚ :=
  (List.zipWith (fun x y => (x - y) ^ 2) a b).sum

/-- The state of the arm after the clutch update and the reset check of a
sample whose assigned controller is `c` (lines 54-76). -/
def trackedState (self : RobotArm) (c : Controller) : RobotArm :=
  storeReset (toggleActivation self c) c (poseMsgToEigen c.pose)

/-- The pose `controller_delta_pose` that `control` computes on an engaged
sample whose assigned controller is `c`. -/
def deltaPose (self : RobotArm) (c : Controller) : Affine3d :=
  controllerDeltaPose (trackedState self c) (poseMsgToEigen c.pose)

/-- The pose `ee_target_pose` that `control` computes on an engaged sample
whose assigned controller is `c`. -/
def targetPose (self : RobotArm) (c : Controller) : Affine3d :=
  eeTargetPose (trackedState self c) (deltaPose self c)

/-- The candidate set the solver returns on an engaged sample whose assigned
controller is `c`. -/
def ikSolutions (solver : KinematicsBase) (self : RobotArm) (c : Controller) :
    List (List ℚ) :=
  solver (targetPose self c) self.joint_position_measured

/-- The state in which `control` leaves the arm on an engaged sample whose
assigned controller is `c`. -/
def engagedState (solver : KinematicsBase) (self : RobotArm) (c : Controller) : RobotArm :=
  pickSolution { trackedState self c with controller_last_pose := poseMsgToEigen c.pose }
    self.joint_position_measured (ikSolutions solver self c) (targetPose self c)
    (poseMsgToEigen c.pose)

/-- The verdict of the safety gate on an engaged sample: `armWithinDelta` on
the joint values read back from `kinematic_state`. -/
def gateVerdict (solver : KinematicsBase) (self : RobotArm) (c : Controller) : Option Bool :=
  armWithinDelta self.joint_position_measured
    (jvqToVector (armCommand (engagedState solver self c).joint_values).joint_position)

/-- What `control` sends out on an engaged sample whose assigned controller is
`c`, when the safety gate returns `within`. -/
def engagedPublications (solver : KinematicsBase) (self : RobotArm) (c : Controller)
    (within : Bool) : List Publication :=
  (if within = true then
      [Publication.arm (armCommand (engagedState solver self c).joint_values)]
    else [])
    ++ [Publication.gripper (gripperCommand c),
        Publication.tf Frame.controller_global (poseMsgToEigen c.pose),
        Publication.tf Frame.controller_reset (engagedState solver self c).controller_last_pose,
        Publication.tf Frame.ee_last_valid (engagedState solver self c).ee_last_valid_pose,
        Publication.tf Frame.ee_target (targetPose self c),
        Publication.tf Frame.controller_frame_diff
          (engagedState solver self c).controller_frame_diff_pose]

/-- The arm commands among the publications of a call. -/
def armCommands : List Publication → List MotionCommand
  | [] => []
  | Publication.arm m :: rest => m :: armCommands rest
  | _ :: rest => armCommands rest

/-- The gripper commands among the publications of a call. -/
def gripperCommands : List Publication → List Robotiq3FingerCommand
  | [] => []
  | Publication.gripper m :: rest => m :: gripperCommands rest
  | _ :: rest => gripperCommands rest

/-- The poses broadcast for a frame among the publications of a call. -/
def framePoses (frame : Frame) : List Publication → List Affine3d
  | [] => []
  | Publication.tf f pose :: rest =>
    if f = frame then pose :: framePoses frame rest else framePoses frame rest
  | _ :: rest => framePoses frame rest

/-- The selection as the spec words it (4.5): the candidate at the minimal
distance to the seed, the first one in the order of the list when several are
at that distance. -/
def firstMinimal (seed : List ℚ) : List (List ℚ) → Option (List ℚ)
  | [] => none
  | s :: rest =>
    match firstMinimal seed rest with
    | none => some s
    | some t => if squaredDistance t seed < squaredDistance s seed then some t else some s

/-! ## Vocabulary of the heap proofs -/

section HeapVocabulary

variable {α : Type}

/-- The heap order of `std::make_heap` by a key, on the nodes from `p` on:
the key of every node whose parent has index at least `p` is at least the key
of its parent (the comparison puts the smallest key on top). -/
def HeapOrderedFrom (k : α → ℚ) (p : Nat) (v : List α) : Prop :=
  ∀ j a b, 0 < j → p ≤ (j - 1) / 2 → v[(j - 1) / 2]? = some a → v[j]? = some b → k a ≤ k b

/-- The comparison `comp` orders by decreasing key, strictly or not: `comp a b`
holds only if the key of `a` is at least that of `b`, and fails only if it is
at most that of `b`. -/
def OrdersByKey (k : α → ℚ) (comp : α → α → Bool) : Prop :=
  ∀ a b, (comp a b = true → k b ≤ k a) ∧ (comp a b = false → k a ≤ k b)

/-- Node `h` lies in the subtree of node `p` of the implicit binary tree. -/
inductive Descends (p : Nat) : Nat → Prop where
  | refl : Descends p p
  | left {h : Nat} : Descends p h → Descends p (2 * h + 1)
  | right {h : Nat} : Descends p h → Descends p (2 * h + 2)

/-- The state of `std::__adjust_heap` while the hole is at `h`: the heap
order holds below `p` wherever the hole is not involved, and the parent of the
hole is in order with the children of the hole. -/
structure HoleInv (k : α → ℚ) (p : Nat) (v : List α) (h : Nat) : Prop where
  lt : h < v.length
  desc : Descends p h
  off : ∀ j a b, 0 < j → p ≤ (j - 1) / 2 → j ≠ h → (j - 1) / 2 ≠ h →
    v[(j - 1) / 2]? = some a → v[j]? = some b → k a ≤ k b
  around : h ≠ p → ∀ j a b, 0 < j → (j - 1) / 2 = h →
    v[(h - 1) / 2]? = some a → v[j]? = some b → k a ≤ k b

end HeapVocabulary

/-! ## Concrete inputs -/

/-- A rotation-free affine pose at a given translation. -/
def poseAt (x y z : ℚ) : Affine3d := ⟨Matrix3d.Identity, ⟨x, y, z⟩⟩

/-- A left arm (hand 1) at rest: disengaged, not yet initialised, every joint
measured and held at zero. -/
def restingArm : RobotArm :=
  { controller_hand := 1
    enabled := false
    initialized := false
    trackpad_pressed := false
    ee_last_valid_pose := poseAt 0 0 0
    controller_last_pose := poseAt 0 0 0
    controller_frame_diff_pose := poseAt 0 0 0
    joint_position_measured := [0, 0, 0, 0, 0, 0, 0]
    joint_values := [0, 0, 0, 0, 0, 0, 0] }

/-- A controller of hand 1 at position `(x, 0, 0)` with the orientation
message `(x, y, z, w) = (1, 0, 0, 0)`, which `quatMsgToEigen` turns into the
identity rotation; `buttons[2]` has the given value, the other buttons are
released, and `axes[2] = 1/2`. -/
def controllerOf (x : ℚ) (trackpad : Int) : Controller :=
  { id := 1
    pose := { position := ⟨x, 0, 0⟩, orientation := ⟨1, 0, 0, 0⟩ }
    joystick := { axes := [0, 0, 1 / 2], buttons := [0, 0, trackpad, 0] } }

/-- A sample with the single controller `controllerOf x trackpad`. -/
def sampleOf (x : ℚ) (trackpad : Int) : ViveSystem :=
  { controllers := [controllerOf x trackpad] }

/-- The resting arm, engaged and initialised. -/
def engagedArm : RobotArm :=
  { restingArm with enabled := true, initialized := true }

/-- A solver whose single solution has every joint at 1. -/
def farSolution : KinematicsBase := fun _ _ => [[1, 1, 1, 1, 1, 1, 1]]

/-- A solver that finds no solution. -/
def noSolution : KinematicsBase := fun _ _ => []

/-- The button sequence released, pressed, pressed, released, pressed on the
trackpad of the controller of hand 1. -/
def pressSequence : List ViveSystem :=
  [sampleOf 0 0, sampleOf 0 2, sampleOf 0 2, sampleOf 0 0, sampleOf 0 2]

/-- The engaged arm with every joint measured at `1/10`. -/
def seededArm : RobotArm :=
  { engagedArm with joint_position_measured := [1 / 10, 1 / 10, 1 / 10, 1 / 10, 1 / 10, 1 / 10, 1 / 10] }

/-- A solver that returns the all-zero and the all-one joint vectors, in that
order. -/
def twoSolutions : KinematicsBase :=
  fun _ _ => [[0, 0, 0, 0, 0, 0, 0], [1, 1, 1, 1, 1, 1, 1]]

/-- Six joint vectors: two at distance `2/10` of the zero vector, then four at
distance `1/10`. -/
def sixCandidates : List (List ℚ) :=
  [[2 / 10, 0, 0, 0, 0, 0, 0], [0, 2 / 10, 0, 0, 0, 0, 0], [1 / 10, 0, 0, 0, 0, 0, 0],
   [0, 1 / 10, 0, 0, 0, 0, 0], [0, 0, 1 / 10, 0, 0, 0, 0], [0, 0, 0, 1 / 10, 0, 0, 0]]

/-- A solver that returns `sixCandidates`. -/
def sixSolutions : KinematicsBase := fun _ _ => sixCandidates

/-- The state reached after a sequence of samples whose successive states are
`states`, from the state `self`: the last of `states`, or `self` when there is
none. -/
def finalState : RobotArm → List RobotArm → RobotArm
  | self, [] => self
  | _, st :: rest => finalState st rest

/-- The state of the engaged arm after the sample at `(1, 0, 0)`, for which the
solver finds nothing. -/
def trackedArm : RobotArm := engagedState noSolution engagedArm (controllerOf 1 0)

/-- Three samples during which the arm is disengaged: the trackpad is pressed
with the controller at `(2, 0, 0)`, held at `(3, 0, 0)`, released at
`(3, 0, 0)`. -/
def disengagedSamples : List ViveSystem :=
  [sampleOf 2 2, sampleOf 3 2, sampleOf 3 0]

/-- The states of `trackedArm` after each of `disengagedSamples`. -/
def disengagedStates : List RobotArm :=
  [toggleActivation trackedArm (controllerOf 2 2),
   toggleActivation (toggleActivation trackedArm (controllerOf 2 2)) (controllerOf 3 2),
   toggleActivation
     (toggleActivation (toggleActivation trackedArm (controllerOf 2 2)) (controllerOf 3 2))
     (controllerOf 3 0)]

/-- An engaged, initialised left arm whose three stored poses all differ from
the identity: the last valid pose is the quarter turn about z at `(1, 2, 3)`,
the last controller pose the quarter turn about x at `(1, 1, 1)`, the frame
diff the quarter turn about y. -/
def skewArm : RobotArm :=
  { controller_hand := 1
    enabled := true
    initialized := true
    trackpad_pressed := false
    ee_last_valid_pose := ⟨⟨0, -1, 0, 1, 0, 0, 0, 0, 1⟩, ⟨1, 2, 3⟩⟩
    controller_last_pose := ⟨⟨1, 0, 0, 0, 0, -1, 0, 1, 0⟩, ⟨1, 1, 1⟩⟩
    controller_frame_diff_pose := ⟨⟨0, 0, 1, 0, 1, 0, -1, 0, 0⟩, ⟨0, 0, 0⟩⟩
    joint_position_measured := [0, 0, 0, 0, 0, 0, 0]
    joint_values := [0, 0, 0, 0, 0, 0, 0] }

/-- A controller of hand 1 at `(4, 6, 9)` with the orientation message
`(1/2, 1/2, 1/2, 1/2)`, a unit quaternion that `quatMsgToEigen` leaves as it
is (the third of a turn about the diagonal); every button is released. -/
def skewController : Controller :=
  { id := 1
    pose := { position := ⟨4, 6, 9⟩, orientation := ⟨1 / 2, 1 / 2, 1 / 2, 1 / 2⟩ }
    joystick := { axes := [0, 0, 1 / 2], buttons := [0, 0, 0, 0] } }

/-! ## Square roots and distances -/

theorem sqrt_lt_iff (s t : ℚ) : sqrt_lt s t = true ↔ Real.sqrt (s : ℝ) < (t : ℝ) := by
  unfold sqrt_lt
  simp only [decide_eq_true_eq]
  constructor
  · rintro ⟨ht, hs⟩
    have ht' : (0 : ℝ) < (t : ℝ) := by exact_mod_cast ht
    rw [Real.sqrt_lt' ht']
    have hs' : (s : ℝ) < (t : ℝ) * (t : ℝ) := by exact_mod_cast hs
    simpa [sq] using hs'
  · intro h
    have ht' : (0 : ℝ) < (t : ℝ) := lt_of_le_of_lt (Real.sqrt_nonneg _) h
    rw [Real.sqrt_lt' ht'] at h
    have hs' : (s : ℝ) < (t : ℝ) * (t : ℝ) := by simpa [sq] using h
    exact ⟨by exact_mod_cast ht', by exact_mod_cast hs'⟩

theorem sqrt_lt_sqrt_iff (s t : ℚ) (hs : 0 ≤ s) :
    sqrt_lt_sqrt s t = true ↔ Real.sqrt (s : ℝ) < Real.sqrt (t : ℝ) := by
  unfold sqrt_lt_sqrt
  simp only [decide_eq_true_eq]
  have hs' : (0 : ℝ) ≤ (s : ℝ) := by exact_mod_cast hs
  rw [Real.sqrt_lt_sqrt_iff hs']
  exact_mod_cast Iff.rfl

theorem accumulateSquares_eq (a b : List ℚ) (d : ℚ) :
    accumulateSquares a b d = d + squaredDistance a b := by
  induction a generalizing b d with
  | nil => simp [accumulateSquares, squaredDistance]
  | cons x xs ih =>
    cases b with
    | nil => simp [accumulateSquares, squaredDistance]
    | cons y ys =>
      simp only [accumulateSquares, ih, squaredDistance, List.zipWith_cons_cons, List.sum_cons]
      ring

theorem squaredDistance_nonneg (a b : List ℚ) : 0 ≤ squaredDistance a b := by
  induction a generalizing b with
  | nil => simp [squaredDistance]
  | cons x xs ih =>
    cases b with
    | nil => simp [squaredDistance]
    | cons y ys =>
      have h := ih ys
      simp only [squaredDistance, List.zipWith_cons_cons, List.sum_cons] at h ⊢
      positivity

/-! ## The assigned controller -/

theorem findAssignedControllerIndex_spec (hand : Int) (cs : List Controller) (i : Nat)
    (acc : Int) :
    (matchedController hand cs = none ∧ findAssignedControllerIndex hand cs i acc = acc) ∨
    (∃ j c, matchedController hand cs = some c ∧ cs[j]? = some c ∧
      findAssignedControllerIndex hand cs i acc = ((i + j : Nat) : Int)) := by
  induction cs generalizing i acc with
  | nil => left; simp [matchedController, findAssignedControllerIndex]
  | cons c rest ih =>
    rcases ih (i + 1) (if c.id = hand then (i : Int) else acc) with ⟨hn, hr⟩ | ⟨j, d, hd, hj, hr⟩
    · by_cases hc : c.id = hand
      · right
        refine ⟨0, c, ?_, by simp, ?_⟩
        · simp [matchedController, hn, hc]
        · simp only [hc, if_true] at hr
          simp only [findAssignedControllerIndex, hc, if_true, hr, Nat.add_zero]
      · left
        refine ⟨?_, ?_⟩
        · simp [matchedController, hn, hc]
        · simp only [hc, if_false] at hr
          simp only [findAssignedControllerIndex, hc, if_false, hr]
    · right
      refine ⟨j + 1, d, ?_, by simpa using hj, ?_⟩
      · simp [matchedController, hd]
      · simp only [findAssignedControllerIndex, hr]
        congr 1
        omega

theorem matchedController_some_iff (hand : Int) (cs : List Controller) :
    (∃ c, matchedController hand cs = some c) ↔ ∃ c ∈ cs, c.id = hand := by
  induction cs with
  | nil => simp [matchedController]
  | cons c rest ih =>
    cases hr : matchedController hand rest with
    | some d =>
      have h1 : ∃ e ∈ rest, e.id = hand := ih.mp ⟨d, hr⟩
      obtain ⟨e, he, hid⟩ := h1
      simp only [matchedController, hr]
      constructor
      · intro _
        exact ⟨e, List.mem_cons_of_mem _ he, hid⟩
      · intro _
        exact ⟨d, rfl⟩
    | none =>
      have h1 : ¬ ∃ e ∈ rest, e.id = hand := fun h => by
        obtain ⟨d, hd⟩ := ih.mpr h
        rw [hr] at hd
        cases hd
      simp only [matchedController, hr]
      by_cases hc : c.id = hand
      · simp [hc]
      · simp only [hc, if_false]
        constructor
        · rintro ⟨_, h⟩
          cases h
        · rintro ⟨e, he, hid⟩
          rcases List.mem_cons.mp he with rfl | he
          · exact absurd hid hc
          · exact absurd ⟨e, he, hid⟩ h1

theorem matchedController_id (hand : Int) (cs : List Controller) (c : Controller)
    (h : matchedController hand cs = some c) : c ∈ cs ∧ c.id = hand := by
  induction cs with
  | nil => simp [matchedController] at h
  | cons d rest ih =>
    cases hr : matchedController hand rest with
    | some e =>
      simp only [matchedController, hr, Option.some.injEq] at h
      subst h
      exact ⟨List.mem_cons_of_mem _ (ih hr).1, (ih hr).2⟩
    | none =>
      simp only [matchedController, hr] at h
      by_cases hc : d.id = hand
      · simp only [hc, if_true, Option.some.injEq] at h
        subst h
        exact ⟨List.mem_cons_self _ _, hc⟩
      · simp [hc] at h

/-- With a valid hand and a matched controller, `control` is `controlAssigned`
on that controller. -/
theorem control_matched (solver : KinematicsBase) (self : RobotArm) (msg : ViveSystem)
    (c : Controller) (hhand : self.controller_hand = 1 ∨ self.controller_hand = 2)
    (hm : matchedController self.controller_hand msg.controllers = some c) :
    control solver self msg = controlAssigned solver self c := by
  have hh : ¬ (self.controller_hand ≠ 1 ∧ self.controller_hand ≠ 2) := by
    rcases hhand with h | h <;> simp [h]
  rcases findAssignedControllerIndex_spec self.controller_hand msg.controllers 0 (-1) with
    ⟨hn, _⟩ | ⟨j, d, hd, hj, hr⟩
  · rw [hm] at hn
    cases hn
  · rw [hm] at hd
    cases hd
    have hne : ¬ (((0 + j : Nat) : Int) = -1) := by omega
    simp only [control, hh, if_false, hr, hne]
    simp [hj]

/-- Without a matched controller `control` returns at once. -/
theorem control_unmatched (solver : KinematicsBase) (self : RobotArm) (msg : ViveSystem)
    (hm : matchedController self.controller_hand msg.controllers = none) :
    control solver self msg = some (self, []) := by
  rcases findAssignedControllerIndex_spec self.controller_hand msg.controllers 0 (-1) with
    ⟨_, hr⟩ | ⟨j, d, hd, _, _⟩
  · simp [control, hr]
  · rw [hm] at hd
    cases hd

/-! ## One call of `control` -/

@[simp] theorem toggleActivation_enabled (self : RobotArm) (c : Controller) :
    (toggleActivation self c).enabled
      = (if trackpadPressed c = true ∧ self.trackpad_pressed = false then !self.enabled
          else self.enabled) := by
  simp [toggleActivation, trackpadPressed]

@[simp] theorem toggleActivation_trackpad_pressed (self : RobotArm) (c : Controller) :
    (toggleActivation self c).trackpad_pressed = trackpadPressed c := rfl

@[simp] theorem toggleActivation_measured (self : RobotArm) (c : Controller) :
    (toggleActivation self c).joint_position_measured = self.joint_position_measured := rfl

@[simp] theorem toggleActivation_hand (self : RobotArm) (c : Controller) :
    (toggleActivation self c).controller_hand = self.controller_hand := rfl

@[simp] theorem storeReset_enabled (self : RobotArm) (c : Controller) (p : Affine3d) :
    (storeReset self c p).enabled = self.enabled := by
  unfold storeReset; split <;> rfl

@[simp] theorem storeReset_trackpad_pressed (self : RobotArm) (c : Controller) (p : Affine3d) :
    (storeReset self c p).trackpad_pressed = self.trackpad_pressed := by
  unfold storeReset; split <;> rfl

@[simp] theorem storeReset_measured (self : RobotArm) (c : Controller) (p : Affine3d) :
    (storeReset self c p).joint_position_measured = self.joint_position_measured := by
  unfold storeReset; split <;> rfl

@[simp] theorem storeReset_hand (self : RobotArm) (c : Controller) (p : Affine3d) :
    (storeReset self c p).controller_hand = self.controller_hand := by
  unfold storeReset; split <;> rfl

@[simp] theorem storeReset_ee_last_valid_pose (self : RobotArm) (c : Controller)
    (p : Affine3d) : (storeReset self c p).ee_last_valid_pose = self.ee_last_valid_pose := by
  unfold storeReset; split <;> rfl

@[simp] theorem storeReset_joint_values (self : RobotArm) (c : Controller) (p : Affine3d) :
    (storeReset self c p).joint_values = self.joint_values := by
  unfold storeReset; split <;> rfl

@[simp] theorem pickSolution_enabled (self : RobotArm) (seed : List ℚ)
    (sols : List (List ℚ)) (t p : Affine3d) :
    (pickSolution self seed sols t p).enabled = self.enabled := by
  unfold pickSolution; split <;> rfl

@[simp] theorem pickSolution_trackpad_pressed (self : RobotArm) (seed : List ℚ)
    (sols : List (List ℚ)) (t p : Affine3d) :
    (pickSolution self seed sols t p).trackpad_pressed = self.trackpad_pressed := by
  unfold pickSolution; split <;> rfl

@[simp] theorem pickSolution_measured (self : RobotArm) (seed : List ℚ)
    (sols : List (List ℚ)) (t p : Affine3d) :
    (pickSolution self seed sols t p).joint_position_measured = self.joint_position_measured := by
  unfold pickSolution; split <;> rfl

@[simp] theorem pickSolution_hand (self : RobotArm) (seed : List ℚ)
    (sols : List (List ℚ)) (t p : Affine3d) :
    (pickSolution self seed sols t p).controller_hand = self.controller_hand := by
  unfold pickSolution; split <;> rfl

@[simp] theorem pickSolution_initialized (self : RobotArm) (seed : List ℚ)
    (sols : List (List ℚ)) (t p : Affine3d) :
    (pickSolution self seed sols t p).initialized = self.initialized := by
  unfold pickSolution; split <;> rfl

@[simp] theorem pickSolution_frame_diff (self : RobotArm) (seed : List ℚ)
    (sols : List (List ℚ)) (t p : Affine3d) :
    (pickSolution self seed sols t p).controller_frame_diff_pose
      = self.controller_frame_diff_pose := by
  unfold pickSolution; split <;> rfl

/-- The gate returns on the vectors `control` hands to it. -/
theorem armWithinDelta_jvq (measured : List ℚ) (jvq : JointValueQuantity)
    (hlen : measured.length = 7) :
    armWithinDelta measured (jvqToVector jvq)
      = some (sqrt_lt (squaredDistance (jvqToVector jvq) measured) (7 / 10)) := by
  simp [armWithinDelta, jvqToVector, hlen, accumulateSquares_eq]

/-- A disengaged sample: only the clutch update happens, nothing is sent. -/
theorem controlAssigned_disengaged (solver : KinematicsBase) (self : RobotArm) (c : Controller)
    (hen : (toggleActivation self c).enabled = false) :
    controlAssigned solver self c = some (toggleActivation self c, []) := by
  unfold controlAssigned
  simp only [hen, if_true]

/-- An engaged sample: the state and the publications of the call, which
fails exactly when the assertion of the gate does. -/
theorem controlAssigned_engaged (solver : KinematicsBase) (self : RobotArm) (c : Controller)
    (hen : (toggleActivation self c).enabled = true) :
    controlAssigned solver self c
      = (gateVerdict solver self c).map
          (fun within => (engagedState solver self c, engagedPublications solver self c within)) := by
  unfold controlAssigned gateVerdict engagedPublications
  simp only [hen, Bool.true_eq_false, if_false]
  simp only [storeReset_measured, toggleActivation_measured, pickSolution_measured]
  simp only [engagedState, trackedState, ikSolutions, targetPose, deltaPose]
  simp only [storeReset_measured, toggleActivation_measured]
  generalize armWithinDelta _ _ = v
  cases v <;> rfl

/-- With a measured vector of length 7 the gate returns. -/
theorem gateVerdict_some (solver : KinematicsBase) (self : RobotArm) (c : Controller)
    (hlen : self.joint_position_measured.length = 7) :
    gateVerdict solver self c = some (sqrt_lt (squaredDistance
      (jvqToVector (armCommand (engagedState solver self c).joint_values).joint_position)
      self.joint_position_measured) (7 / 10)) := by
  unfold gateVerdict
  exact armWithinDelta_jvq _ _ hlen

/-- An engaged matched sample: `control` returns the engaged state and the
engaged publications. -/
theorem control_engaged (solver : KinematicsBase) (self : RobotArm) (msg : ViveSystem)
    (c : Controller) (hhand : self.controller_hand = 1 ∨ self.controller_hand = 2)
    (hm : matchedController self.controller_hand msg.controllers = some c)
    (hen : (toggleActivation self c).enabled = true)
    (hlen : self.joint_position_measured.length = 7) :
    ∃ within, gateVerdict solver self c = some within ∧
      control solver self msg
        = some (engagedState solver self c, engagedPublications solver self c within) := by
  refine ⟨_, gateVerdict_some solver self c hlen, ?_⟩
  rw [control_matched solver self msg c hhand hm, controlAssigned_engaged solver self c hen,
    gateVerdict_some solver self c hlen]
  rfl

/-- A disengaged matched sample: `control` only updates the clutch. -/
theorem control_disengaged (solver : KinematicsBase) (self : RobotArm) (msg : ViveSystem)
    (c : Controller) (hhand : self.controller_hand = 1 ∨ self.controller_hand = 2)
    (hm : matchedController self.controller_hand msg.controllers = some c)
    (hen : (toggleActivation self c).enabled = false) :
    control solver self msg = some (toggleActivation self c, []) := by
  rw [control_matched solver self msg c hhand hm, controlAssigned_disengaged solver self c hen]

@[simp] theorem armCommands_engagedPublications (solver : KinematicsBase) (self : RobotArm)
    (c : Controller) (within : Bool) :
    armCommands (engagedPublications solver self c within)
      = if within = true then [armCommand (engagedState solver self c).joint_values] else [] := by
  cases within <;> simp [engagedPublications, armCommands]

@[simp] theorem gripperCommands_engagedPublications (solver : KinematicsBase) (self : RobotArm)
    (c : Controller) (within : Bool) :
    gripperCommands (engagedPublications solver self c within) = [gripperCommand c] := by
  cases within <;> simp [engagedPublications, gripperCommands]

@[simp] theorem framePoses_ee_target_engagedPublications (solver : KinematicsBase)
    (self : RobotArm) (c : Controller) (within : Bool) :
    framePoses Frame.ee_target (engagedPublications solver self c within)
      = [targetPose self c] := by
  cases within <;> simp [engagedPublications, framePoses]

/-! ## The clutch -/

/-- Every matched sample is processed to the end, and the clutch fields of the
new state are those of `toggleActivation`. -/
theorem control_clutch (solver : KinematicsBase) (self : RobotArm) (msg : ViveSystem)
    (c : Controller) (hhand : self.controller_hand = 1 ∨ self.controller_hand = 2)
    (hm : matchedController self.controller_hand msg.controllers = some c)
    (hlen : self.joint_position_measured.length = 7) :
    ∃ st out, control solver self msg = some (st, out) ∧
      st.enabled = (toggleActivation self c).enabled ∧
      st.trackpad_pressed = trackpadPressed c ∧
      st.controller_hand = self.controller_hand ∧
      st.joint_position_measured = self.joint_position_measured := by
  rw [control_matched solver self msg c hhand hm]
  cases hen : (toggleActivation self c).enabled with
  | false =>
    exact ⟨_, _, controlAssigned_disengaged solver self c hen, hen, rfl, rfl, rfl⟩
  | true =>
    obtain ⟨within, _, h⟩ := control_engaged solver self msg c hhand hm hen hlen
    rw [control_matched solver self msg c hhand hm] at h
    refine ⟨_, _, h, ?_, ?_, ?_, ?_⟩
    · simp only [engagedState, trackedState, pickSolution_enabled, storeReset_enabled]
      exact hen
    · simp [engagedState, trackedState]
    · simp [engagedState, trackedState]
    · simp [engagedState, trackedState]

theorem toggle_step (a p t e : Bool)
    (h : a = if p = true ∧ t = false then !e else e) :
    (if a = e then 0 else 1) = (if p = true ∧ t = false then 1 else 0) := by
  subst h
  cases p <;> cases t <;> cases e <;> simp

/-- Along a sequence of matched samples the number of toggles of `enabled` is
the number of rising edges of the trackpad button. -/
theorem controlTrace_toggleCount (solver : KinematicsBase) (msgs : List ViveSystem) :
    ∀ self : RobotArm, (self.controller_hand = 1 ∨ self.controller_hand = 2) →
      self.joint_position_measured.length = 7 →
      (∀ msg ∈ msgs, ∃ c, matchedController self.controller_hand msg.controllers = some c) →
      ∃ states, controlTrace solver self msgs = some states ∧
        states.length = msgs.length ∧
        toggleCount self.enabled (states.map (fun st => st.enabled))
          = risingEdges self.trackpad_pressed
              (msgs.map (sampleTrackpad self.controller_hand)) := by
  induction msgs with
  | nil =>
    intro self _ _ _
    exact ⟨[], rfl, rfl, rfl⟩
  | cons msg rest ih =>
    intro self hhand hlen hall
    obtain ⟨c, hc⟩ := hall msg (List.mem_cons_self _ _)
    obtain ⟨st, out, hctl, hen, htp, hh, hmeas⟩ := control_clutch solver self msg c hhand hc hlen
    have hall' : ∀ m ∈ rest, ∃ d, matchedController st.controller_hand m.controllers = some d := by
      intro m hmem
      rw [hh]
      exact hall m (List.mem_cons_of_mem _ hmem)
    obtain ⟨states, htr, hl, hcount⟩ := ih st (by rw [hh]; exact hhand) (by rw [hmeas]; exact hlen) hall'
    refine ⟨st :: states, ?_, by simp [hl], ?_⟩
    · simp only [controlTrace, hctl, htr]
    · have hs : sampleTrackpad self.controller_hand msg = trackpadPressed c := by
        simp [sampleTrackpad, hc]
      simp only [List.map_cons, toggleCount, risingEdges, hcount, hs, htp, hh]
      congr 1
      have hen' := hen
      rw [toggleActivation_enabled] at hen'
      exact toggle_step _ _ _ _ hen'

/-- C1. Clutch edge-triggering: on a matched sample `enabled` is flipped exactly
when `buttons[2]` is 2 and `trackpad_pressed` was false (and is kept
otherwise), and `trackpad_pressed` becomes `buttons[2] == 2`; hence, starting
with `trackpad_pressed = false`, along any sequence of matched samples the
number of toggles of `enabled` is the number of not-pressed-to-pressed
transitions, two for `[released, pressed, pressed, released, pressed]`. -/
theorem clutch_edge_triggering (solver : KinematicsBase) (self : RobotArm)
    (hhand : self.controller_hand = 1 ∨ self.controller_hand = 2)
    (hlen : self.joint_position_measured.length = 7) :
    (∀ msg c, matchedController self.controller_hand msg.controllers = some c →
      ∃ st out, control solver self msg = some (st, out) ∧
        (st.enabled = (!self.enabled) ↔
          (c.joystick.buttons.getD 2 0 = 2 ∧ self.trackpad_pressed = false)) ∧
        (st.enabled = self.enabled ↔
          ¬ (c.joystick.buttons.getD 2 0 = 2 ∧ self.trackpad_pressed = false)) ∧
        st.trackpad_pressed = decide (c.joystick.buttons.getD 2 0 = 2)) ∧
    (self.trackpad_pressed = false →
      ∀ msgs : List ViveSystem,
        (∀ msg ∈ msgs, ∃ c, matchedController self.controller_hand msg.controllers = some c) →
        ∃ states, controlTrace solver self msgs = some states ∧
          states.length = msgs.length ∧
          toggleCount self.enabled (states.map (fun st => st.enabled))
            = risingEdges false (msgs.map (sampleTrackpad self.controller_hand)) ∧
          (msgs.map (sampleTrackpad self.controller_hand) = [false, true, true, false, true] →
            toggleCount self.enabled (states.map (fun st => st.enabled)) = 2)) := by
  refine ⟨?_, ?_⟩
  · intro msg c hc
    obtain ⟨st, out, hctl, hen, htp, _, _⟩ := control_clutch solver self msg c hhand hc hlen
    refine ⟨st, out, hctl, ?_, ?_, htp⟩
    · rw [hen, toggleActivation_enabled]
      unfold trackpadPressed
      by_cases hb : c.joystick.buttons.getD 2 0 = 2 <;>
        cases self.trackpad_pressed <;> cases self.enabled <;> simp [hb]
    · rw [hen, toggleActivation_enabled]
      unfold trackpadPressed
      by_cases hb : c.joystick.buttons.getD 2 0 = 2 <;>
        cases self.trackpad_pressed <;> cases self.enabled <;> simp [hb]
  · intro htp msgs hall
    obtain ⟨states, htr, hl, hcount⟩ := controlTrace_toggleCount solver msgs self hhand hlen hall
    rw [htp] at hcount
    refine ⟨states, htr, hl, hcount, ?_⟩
    intro hpat
    rw [hcount, hpat]
    rfl

/-- Witness of C1: the resting arm fed the sequence released, pressed, pressed,
released, pressed toggles `enabled` twice. -/
theorem clutch_edge_triggering_witness :
    (restingArm.controller_hand = 1 ∨ restingArm.controller_hand = 2) ∧
    restingArm.joint_position_measured.length = 7 ∧
    ∃ states, controlTrace noSolution restingArm pressSequence = some states ∧
      states.length = pressSequence.length ∧
      toggleCount restingArm.enabled (states.map (fun st => st.enabled)) = 2 := by
  refine ⟨Or.inl rfl, rfl, ?_⟩
  obtain ⟨states, h1, h2, _, h4⟩ :=
    (clutch_edge_triggering noSolution restingArm (Or.inl rfl) rfl).2 rfl pressSequence
      (by
        intro msg hmsg
        simp only [pressSequence, List.mem_cons, List.mem_singleton, List.not_mem_nil,
          or_false] at hmsg
        rcases hmsg with rfl | rfl | rfl | rfl | rfl <;> exact ⟨_, rfl⟩)
  exact ⟨states, h1, h2, h4 rfl⟩

/-! ## Pose algebra -/

theorem Matrix3d.Identity_mul (a : Matrix3d) : Matrix3d.Identity.mul a = a := by
  ext <;> simp [Matrix3d.mul, Matrix3d.Identity]

theorem Matrix3d.mul_Identity (a : Matrix3d) : a.mul Matrix3d.Identity = a := by
  ext <;> simp [Matrix3d.mul, Matrix3d.Identity]

theorem Matrix3d.Identity_mulVec (v : Vector3d) : Matrix3d.Identity.mulVec v = v := by
  ext <;> simp [Matrix3d.mulVec, Matrix3d.Identity]

theorem Matrix3d.mulVec_zero (a : Matrix3d) : a.mulVec Vector3d.zero = Vector3d.zero := by
  ext <;> simp [Matrix3d.mulVec, Vector3d.zero]

theorem Vector3d.sub_self (v : Vector3d) : v.sub v = Vector3d.zero := by
  ext <;> simp [Vector3d.sub, Vector3d.zero]

theorem Vector3d.add_zero (v : Vector3d) : v.add Vector3d.zero = v := by
  ext <;> simp [Vector3d.add, Vector3d.zero]

theorem Vector3d.zero_add (v : Vector3d) : Vector3d.zero.add v = v := by
  ext <;> simp [Vector3d.add, Vector3d.zero]

/-- The inverse Eigen computes is a left inverse when the determinant is not
zero. -/
theorem Matrix3d.inverse_mul_self (a : Matrix3d) (h : a.determinant ≠ 0) :
    a.inverse.mul a = Matrix3d.Identity := by
  have hd : (a.m11 * a.m22 - a.m12 * a.m21) * a.m00
      + (a.m21 * a.m02 - a.m22 * a.m01) * a.m10
      + (a.m01 * a.m12 - a.m02 * a.m11) * a.m20 ≠ 0 := h
  ext <;> simp only [Matrix3d.mul, Matrix3d.inverse, Matrix3d.Identity, Matrix3d.determinant] <;>
    field_simp <;> ring

/-- The rotation matrix of a unit quaternion has determinant one. -/
theorem Quaterniond.determinant_toRotationMatrix (q : Quaterniond)
    (h : q.w ^ 2 + q.x ^ 2 + q.y ^ 2 + q.z ^ 2 = 1) :
    q.toRotationMatrix.determinant = 1 := by
  have hcube : q.toRotationMatrix.determinant = (q.w ^ 2 + q.x ^ 2 + q.y ^ 2 + q.z ^ 2) ^ 3 := by
    simp only [Quaterniond.toRotationMatrix, Matrix3d.determinant]
    rw [← h]
    ring
  rw [hcube, h]
  norm_num

/-- The pose of a pose message: the rotation matrix of the converted
quaternion and the converted point. -/
theorem poseMsgToEigen_eq (pose : Pose) :
    poseMsgToEigen pose
      = ⟨(quatMsgToEigen pose.orientation).toRotationMatrix, pointMsgToEigen pose.position⟩ := by
  simp only [poseMsgToEigen, translationAndRotationToAffine, Affine3d.rotate, Affine3d.translate,
    Affine3d.Identity, Matrix3d.Identity_mul, Matrix3d.Identity_mulVec, Vector3d.zero_add]

/-! ## The state after an engaged sample -/

theorem engagedState_ee_last_valid_pose (solver : KinematicsBase) (self : RobotArm)
    (c : Controller) :
    (engagedState solver self c).ee_last_valid_pose
      = if ikSolutions solver self c = [] then self.ee_last_valid_pose else targetPose self c := by
  unfold engagedState pickSolution
  by_cases h : ikSolutions solver self c = []
  · simp [h, trackedState, toggleActivation]
  · simp [h, List.isEmpty_iff]

theorem engagedState_controller_last_pose (solver : KinematicsBase) (self : RobotArm)
    (c : Controller) :
    (engagedState solver self c).controller_last_pose = poseMsgToEigen c.pose := by
  unfold engagedState pickSolution
  split <;> rfl

theorem engagedState_joint_values (solver : KinematicsBase) (self : RobotArm) (c : Controller) :
    (engagedState solver self c).joint_values
      = if ikSolutions solver self c = [] then self.joint_values
        else (priority_queue_top (SeedDistanceFunctor self.joint_position_measured)
          (ikSolutions solver self c)).getD [] := by
  unfold engagedState pickSolution
  by_cases h : ikSolutions solver self c = []
  · simp [h, trackedState, toggleActivation]
  · simp [h, List.isEmpty_iff]

theorem engagedState_frame_diff (solver : KinematicsBase) (self : RobotArm) (c : Controller) :
    (engagedState solver self c).controller_frame_diff_pose
      = (trackedState self c).controller_frame_diff_pose := by
  simp [engagedState]

theorem engagedState_initialized (solver : KinematicsBase) (self : RobotArm) (c : Controller) :
    (engagedState solver self c).initialized = true := by
  simp only [engagedState, pickSolution_initialized, trackedState, storeReset]
  split
  · rfl
  · rename_i h
    simp only [not_or, Bool.not_eq_false] at h
    exact h.2

/-! ## Evaluation on the concrete inputs -/

theorem targetPose_engagedArm :
    targetPose engagedArm (controllerOf 1 0) = poseAt 1 0 0 := by
  simp only [targetPose, deltaPose, trackedState, storeReset, toggleActivation, controllerOf,
    engagedArm, restingArm, eeTargetPose, controllerDeltaPose, poseMsgToEigen_eq, quatMsgToEigen,
    pointMsgToEigen, Quaterniond.toRotationMatrix, Affine3d.inverse, Matrix3d.inverse,
    Matrix3d.determinant, Matrix3d.mul, Matrix3d.mulVec, Vector3d.sub, Vector3d.add, poseAt,
    Matrix3d.Identity]
  norm_num [List.getD]

theorem gateVerdict_farSolution :
    gateVerdict farSolution engagedArm (controllerOf 1 0) = some false := by
  rw [gateVerdict_some farSolution engagedArm (controllerOf 1 0) rfl, engagedState_joint_values]
  simp only [ikSolutions, farSolution]
  norm_num [priority_queue_top, make_heap, armCommand, jvqToVector, squaredDistance, sqrt_lt,
    engagedArm, restingArm]

theorem gateVerdict_noSolution :
    gateVerdict noSolution engagedArm (controllerOf 1 0) = some true := by
  rw [gateVerdict_some noSolution engagedArm (controllerOf 1 0) rfl, engagedState_joint_values]
  simp only [ikSolutions, noSolution]
  norm_num [armCommand, jvqToVector, squaredDistance, sqrt_lt, engagedArm, restingArm]

/-! ## Commit of `ee_last_valid_pose` -/

/-- C4, counterexample. An engaged matched sample whose single IK candidate is
rejected by the safety gate: no arm command is published, and
`ee_last_valid_pose` nevertheless moves from the translation `(0, 0, 0)` to the
translation `(1, 0, 0)` of the target. -/
theorem ee_last_valid_pose_moves_on_rejection :
    matchedController engagedArm.controller_hand (sampleOf 1 0).controllers
      = some (controllerOf 1 0) ∧
    (toggleActivation engagedArm (controllerOf 1 0)).enabled = true ∧
    ikSolutions farSolution engagedArm (controllerOf 1 0) ≠ [] ∧
    gateVerdict farSolution engagedArm (controllerOf 1 0) = some false ∧
    ∃ st out, control farSolution engagedArm (sampleOf 1 0) = some (st, out) ∧
      armCommands out = [] ∧
      st.ee_last_valid_pose = targetPose engagedArm (controllerOf 1 0) ∧
      st.ee_last_valid_pose.translation = ⟨1, 0, 0⟩ ∧
      engagedArm.ee_last_valid_pose.translation = ⟨0, 0, 0⟩ ∧
      st.ee_last_valid_pose ≠ engagedArm.ee_last_valid_pose := by
  obtain ⟨within, hw, hctl⟩ := control_engaged farSolution engagedArm (sampleOf 1 0)
    (controllerOf 1 0) (Or.inl rfl) rfl rfl rfl
  rw [gateVerdict_farSolution] at hw
  cases hw
  have hne : ikSolutions farSolution engagedArm (controllerOf 1 0) ≠ [] := by
    simp [ikSolutions, farSolution]
  have htarget : (engagedState farSolution engagedArm (controllerOf 1 0)).ee_last_valid_pose
      = targetPose engagedArm (controllerOf 1 0) := by
    rw [engagedState_ee_last_valid_pose, if_neg hne]
  have hpose : (engagedState farSolution engagedArm (controllerOf 1 0)).ee_last_valid_pose
      = poseAt 1 0 0 := by
    rw [htarget, targetPose_engagedArm]
  refine ⟨rfl, rfl, hne, gateVerdict_farSolution, _, _, hctl, by simp, htarget, ?_, rfl, ?_⟩
  · rw [hpose]
    rfl
  · rw [hpose]
    decide

/-- C4 (amended). On every engaged matched sample `control` sets
`ee_last_valid_pose` to the target pose as soon as the IK solver returns a
non-empty candidate set, whether the selected candidate passes the safety gate
or not, and leaves it at its value on entry when the set is empty; the gate
only decides whether the arm command is published. -/
theorem ee_last_valid_pose_commit (solver : KinematicsBase) (self : RobotArm)
    (msg : ViveSystem) (c : Controller)
    (hhand : self.controller_hand = 1 ∨ self.controller_hand = 2)
    (hm : matchedController self.controller_hand msg.controllers = some c)
    (hen : (toggleActivation self c).enabled = true)
    (hlen : self.joint_position_measured.length = 7) :
    ∃ st out within, control solver self msg = some (st, out) ∧
      gateVerdict solver self c = some within ∧
      (ikSolutions solver self c ≠ [] → st.ee_last_valid_pose = targetPose self c) ∧
      (ikSolutions solver self c = [] → st.ee_last_valid_pose = self.ee_last_valid_pose) ∧
      (within = true → armCommands out = [armCommand st.joint_values]) ∧
      (within = false → armCommands out = []) := by
  obtain ⟨within, hw, hctl⟩ := control_engaged solver self msg c hhand hm hen hlen
  refine ⟨_, _, within, hctl, hw, ?_, ?_, ?_, ?_⟩
  · intro h
    rw [engagedState_ee_last_valid_pose, if_neg h]
  · intro h
    rw [engagedState_ee_last_valid_pose, if_pos h]
  · intro h
    simp [h]
  · intro h
    simp [h]

/-- Witness of C4 (amended): the engaged arm, one far candidate. -/
theorem ee_last_valid_pose_commit_witness :
    (engagedArm.controller_hand = 1 ∨ engagedArm.controller_hand = 2) ∧
    matchedController engagedArm.controller_hand (sampleOf 1 0).controllers
      = some (controllerOf 1 0) ∧
    (toggleActivation engagedArm (controllerOf 1 0)).enabled = true ∧
    engagedArm.joint_position_measured.length = 7 ∧
    ∃ st out within, control farSolution engagedArm (sampleOf 1 0) = some (st, out) ∧
      gateVerdict farSolution engagedArm (controllerOf 1 0) = some within ∧
      (ikSolutions farSolution engagedArm (controllerOf 1 0) ≠ [] →
        st.ee_last_valid_pose = targetPose engagedArm (controllerOf 1 0)) ∧
      (ikSolutions farSolution engagedArm (controllerOf 1 0) = [] →
        st.ee_last_valid_pose = engagedArm.ee_last_valid_pose) ∧
      (within = true → armCommands out = [armCommand st.joint_values]) ∧
      (within = false → armCommands out = []) :=
  ⟨Or.inl rfl, rfl, rfl, rfl,
    ee_last_valid_pose_commit farSolution engagedArm (sampleOf 1 0) (controllerOf 1 0)
      (Or.inl rfl) rfl rfl rfl⟩

/-! ## The no-candidate path -/

/-- C5, counterexample. An engaged matched sample for which the solver
returns nothing: `controller_last_pose` moves from the translation `(0, 0, 0)`
to the translation `(1, 0, 0)` of the controller pose, and an arm command (the
joint values held by the kinematic state, which pass the safety gate) is
published. -/
theorem no_candidate_still_moves_and_publishes :
    matchedController engagedArm.controller_hand (sampleOf 1 0).controllers
      = some (controllerOf 1 0) ∧
    (toggleActivation engagedArm (controllerOf 1 0)).enabled = true ∧
    ikSolutions noSolution engagedArm (controllerOf 1 0) = [] ∧
    ∃ st out, control noSolution engagedArm (sampleOf 1 0) = some (st, out) ∧
      st.controller_last_pose = poseMsgToEigen (controllerOf 1 0).pose ∧
      st.controller_last_pose.translation = ⟨1, 0, 0⟩ ∧
      engagedArm.controller_last_pose.translation = ⟨0, 0, 0⟩ ∧
      st.controller_last_pose ≠ engagedArm.controller_last_pose ∧
      armCommands out = [armCommand [0, 0, 0, 0, 0, 0, 0]] := by
  obtain ⟨within, hw, hctl⟩ := control_engaged noSolution engagedArm (sampleOf 1 0)
    (controllerOf 1 0) (Or.inl rfl) rfl rfl rfl
  rw [gateVerdict_noSolution] at hw
  cases hw
  have hlast := engagedState_controller_last_pose noSolution engagedArm (controllerOf 1 0)
  have htr : (engagedState noSolution engagedArm (controllerOf 1 0)).controller_last_pose.translation
      = ⟨1, 0, 0⟩ := by
    rw [hlast, poseMsgToEigen_eq]
    rfl
  have hjv : (engagedState noSolution engagedArm (controllerOf 1 0)).joint_values
      = [0, 0, 0, 0, 0, 0, 0] := by
    have he : ikSolutions noSolution engagedArm (controllerOf 1 0) = [] := rfl
    rw [engagedState_joint_values, if_pos he]
    rfl
  refine ⟨rfl, rfl, rfl, _, _, hctl, hlast, htr, rfl, ?_, ?_⟩
  · intro h
    rw [h] at htr
    revert htr
    decide
  · simp [hjv]

/-- C5 (amended). On every engaged matched sample for which the IK solver
returns an empty candidate set, `control` leaves `ee_last_valid_pose` and the
joint values of the kinematic state at their values on entry, sets
`controller_last_pose` to the current controller pose, and publishes an arm
command exactly when those retained joint values pass the safety gate, the
command carrying them. -/
theorem no_candidate_path (solver : KinematicsBase) (self : RobotArm)
    (msg : ViveSystem) (c : Controller)
    (hhand : self.controller_hand = 1 ∨ self.controller_hand = 2)
    (hm : matchedController self.controller_hand msg.controllers = some c)
    (hen : (toggleActivation self c).enabled = true)
    (hlen : self.joint_position_measured.length = 7)
    (hempty : ikSolutions solver self c = []) :
    ∃ st out within, control solver self msg = some (st, out) ∧
      armWithinDelta self.joint_position_measured
        (jvqToVector (armCommand self.joint_values).joint_position) = some within ∧
      st.ee_last_valid_pose = self.ee_last_valid_pose ∧
      st.joint_values = self.joint_values ∧
      st.controller_last_pose = poseMsgToEigen c.pose ∧
      (within = true → armCommands out = [armCommand self.joint_values]) ∧
      (within = false → armCommands out = []) := by
  obtain ⟨within, hw, hctl⟩ := control_engaged solver self msg c hhand hm hen hlen
  have hjv : (engagedState solver self c).joint_values = self.joint_values := by
    rw [engagedState_joint_values, if_pos hempty]
  refine ⟨_, _, within, hctl, ?_, ?_, hjv, engagedState_controller_last_pose solver self c,
    ?_, ?_⟩
  · unfold gateVerdict at hw
    rw [hjv] at hw
    exact hw
  · rw [engagedState_ee_last_valid_pose, if_pos hempty]
  · intro h
    simp [h, hjv]
  · intro h
    simp [h]

/-- Witness of C5 (amended): the engaged arm, a solver without solution. -/
theorem no_candidate_path_witness :
    (engagedArm.controller_hand = 1 ∨ engagedArm.controller_hand = 2) ∧
    matchedController engagedArm.controller_hand (sampleOf 1 0).controllers
      = some (controllerOf 1 0) ∧
    (toggleActivation engagedArm (controllerOf 1 0)).enabled = true ∧
    engagedArm.joint_position_measured.length = 7 ∧
    ikSolutions noSolution engagedArm (controllerOf 1 0) = [] ∧
    ∃ st out within, control noSolution engagedArm (sampleOf 1 0) = some (st, out) ∧
      armWithinDelta engagedArm.joint_position_measured
        (jvqToVector (armCommand engagedArm.joint_values).joint_position) = some within ∧
      st.ee_last_valid_pose = engagedArm.ee_last_valid_pose ∧
      st.joint_values = engagedArm.joint_values ∧
      st.controller_last_pose = poseMsgToEigen (controllerOf 1 0).pose ∧
      (within = true → armCommands out = [armCommand engagedArm.joint_values]) ∧
      (within = false → armCommands out = []) :=
  ⟨Or.inl rfl, rfl, rfl, rfl, rfl,
    no_candidate_path noSolution engagedArm (sampleOf 1 0) (controllerOf 1 0)
      (Or.inl rfl) rfl rfl rfl rfl⟩

/-! ## The gripper path -/

/-- A call of `control` that returns sends nothing, or is an engaged matched
sample and sends the engaged publications. -/
theorem control_publications (solver : KinematicsBase) (self : RobotArm) (msg : ViveSystem)
    (st : RobotArm) (out : List Publication) (h : control solver self msg = some (st, out)) :
    out = [] ∨
    ∃ c within, matchedController self.controller_hand msg.controllers = some c ∧
      (toggleActivation self c).enabled = true ∧
      gateVerdict solver self c = some within ∧
      st = engagedState solver self c ∧
      out = engagedPublications solver self c within := by
  by_cases hhand : self.controller_hand = 1 ∨ self.controller_hand = 2
  · cases hm : matchedController self.controller_hand msg.controllers with
    | none =>
      rw [control_unmatched solver self msg hm] at h
      left
      simp only [Option.some.injEq, Prod.mk.injEq] at h
      exact h.2.symm
    | some c =>
      rw [control_matched solver self msg c hhand hm] at h
      cases hen : (toggleActivation self c).enabled with
      | false =>
        rw [controlAssigned_disengaged solver self c hen] at h
        left
        simp only [Option.some.injEq, Prod.mk.injEq] at h
        exact h.2.symm
      | true =>
        rw [controlAssigned_engaged solver self c hen] at h
        cases hg : gateVerdict solver self c with
        | none =>
          rw [hg] at h
          cases h
        | some within =>
          rw [hg] at h
          simp only [Option.map_some', Option.some.injEq, Prod.mk.injEq] at h
          right
          exact ⟨c, within, rfl, hen, hg, h.1.symm, h.2.symm⟩
  · left
    have hh : self.controller_hand ≠ 1 ∧ self.controller_hand ≠ 2 := by
      simp only [not_or] at hhand
      exact hhand
    unfold control at h
    rw [if_pos hh] at h
    simp only [Option.some.injEq, Prod.mk.injEq] at h
    exact h.2.symm

/-- C6, counterexample. A matched sample that leaves the clutch disengaged:
nothing is published, no gripper command either. -/
theorem no_gripper_command_while_disengaged :
    matchedController restingArm.controller_hand (sampleOf 1 0).controllers
      = some (controllerOf 1 0) ∧
    ∃ st out, control noSolution restingArm (sampleOf 1 0) = some (st, out) ∧
      st.enabled = false ∧ gripperCommands out = [] ∧ out = [] :=
  ⟨rfl, restingArm, [], by decide, rfl, rfl, rfl⟩

/-- C6 (amended). On every matched sample `control` publishes exactly one
gripper command when `enabled` is true after the clutch update, whether or not
the arm command passes the safety gate, and publishes nothing at all when
`enabled` is false after the clutch update. -/
theorem gripper_command_iff_engaged (solver : KinematicsBase) (self : RobotArm)
    (msg : ViveSystem) (c : Controller)
    (hhand : self.controller_hand = 1 ∨ self.controller_hand = 2)
    (hm : matchedController self.controller_hand msg.controllers = some c)
    (hlen : self.joint_position_measured.length = 7) :
    ∃ st out, control solver self msg = some (st, out) ∧
      st.enabled = (toggleActivation self c).enabled ∧
      (st.enabled = true → gripperCommands out = [gripperCommand c]) ∧
      (st.enabled = false → out = []) := by
  cases hen : (toggleActivation self c).enabled with
  | false =>
    refine ⟨_, _, control_disengaged solver self msg c hhand hm hen, hen, ?_, ?_⟩
    · intro h
      rw [hen] at h
      cases h
    · intro _
      rfl
  | true =>
    obtain ⟨within, _, hctl⟩ := control_engaged solver self msg c hhand hm hen hlen
    have he : (engagedState solver self c).enabled = true := by
      simp only [engagedState, trackedState, pickSolution_enabled, storeReset_enabled]
      exact hen
    refine ⟨_, _, hctl, he, ?_, ?_⟩
    · intro _
      exact gripperCommands_engagedPublications solver self c within
    · intro h
      rw [he] at h
      cases h

/-- Witness of C6 (amended): the resting arm on a sample that engages it. -/
theorem gripper_command_iff_engaged_witness :
    (restingArm.controller_hand = 1 ∨ restingArm.controller_hand = 2) ∧
    matchedController restingArm.controller_hand (sampleOf 1 2).controllers
      = some (controllerOf 1 2) ∧
    restingArm.joint_position_measured.length = 7 ∧
    ∃ st out, control noSolution restingArm (sampleOf 1 2) = some (st, out) ∧
      st.enabled = (toggleActivation restingArm (controllerOf 1 2)).enabled ∧
      (st.enabled = true → gripperCommands out = [gripperCommand (controllerOf 1 2)]) ∧
      (st.enabled = false → out = []) :=
  ⟨Or.inl rfl, rfl, rfl,
    gripper_command_iff_engaged noSolution restingArm (sampleOf 1 2) (controllerOf 1 2)
      (Or.inl rfl) rfl rfl⟩

/-- C7, counterexample. The gripper command published for a controller with
`axes[2] = 1/2` has scissor position 1, not `1/2`. -/
theorem scissor_position_is_not_the_axis :
    ∃ st out g, control noSolution engagedArm (sampleOf 1 0) = some (st, out) ∧
      gripperCommands out = [g] ∧
      (controllerOf 1 0).joystick.axes.getD 2 0 = 1 / 2 ∧
      g.finger_a_command.position = 1 / 2 ∧
      g.scissor_command.position = 1 ∧
      g.scissor_command.position ≠ (controllerOf 1 0).joystick.axes.getD 2 0 := by
  obtain ⟨within, _, hctl⟩ := control_engaged noSolution engagedArm (sampleOf 1 0)
    (controllerOf 1 0) (Or.inl rfl) rfl rfl rfl
  refine ⟨_, _, gripperCommand (controllerOf 1 0), hctl,
    gripperCommands_engagedPublications _ _ _ _, ?_, ?_, rfl, ?_⟩
  · simp [controllerOf]
  · simp [gripperCommand, controllerOf]
  · simp only [gripperCommand, controllerOf, List.getD_cons_succ, List.getD_cons_zero]
    norm_num

/-- C7 (amended). Every gripper command `control` publishes is that of the
matched controller: the positions of `finger_a`, `finger_b` and `finger_c` are
its `axes[2]`, the scissor position is the constant 1, and each of the four
actuator commands carries speed 1 and force 1. -/
theorem gripper_command_contents (solver : KinematicsBase) (self : RobotArm)
    (msg : ViveSystem) (st : RobotArm) (out : List Publication) (g : Robotiq3FingerCommand)
    (h : control solver self msg = some (st, out)) (hg : g ∈ gripperCommands out) :
    ∃ c, matchedController self.controller_hand msg.controllers = some c ∧
      g.finger_a_command.position = c.joystick.axes.getD 2 0 ∧
      g.finger_b_command.position = c.joystick.axes.getD 2 0 ∧
      g.finger_c_command.position = c.joystick.axes.getD 2 0 ∧
      g.scissor_command.position = 1 ∧
      g.scissor_command.speed = 1 ∧ g.scissor_command.force = 1 ∧
      g.finger_a_command.speed = 1 ∧ g.finger_a_command.force = 1 ∧
      g.finger_b_command.speed = 1 ∧ g.finger_b_command.force = 1 ∧
      g.finger_c_command.speed = 1 ∧ g.finger_c_command.force = 1 := by
  rcases control_publications solver self msg st out h with hnil | ⟨c, within, hm, _, _, _, hout⟩
  · rw [hnil] at hg
    simp [gripperCommands] at hg
  · rw [hout, gripperCommands_engagedPublications] at hg
    simp only [List.mem_singleton] at hg
    subst hg
    exact ⟨c, hm, rfl, rfl, rfl, rfl, rfl, rfl, rfl, rfl, rfl, rfl, rfl, rfl⟩

/-- Witness of C7 (amended): the command published by the engaged arm. -/
theorem gripper_command_contents_witness :
    ∃ st out g, control noSolution engagedArm (sampleOf 1 0) = some (st, out) ∧
      g ∈ gripperCommands out ∧
      ∃ c, matchedController engagedArm.controller_hand (sampleOf 1 0).controllers = some c ∧
        g.finger_a_command.position = c.joystick.axes.getD 2 0 ∧
        g.finger_b_command.position = c.joystick.axes.getD 2 0 ∧
        g.finger_c_command.position = c.joystick.axes.getD 2 0 ∧
        g.scissor_command.position = 1 ∧
        g.scissor_command.speed = 1 ∧ g.scissor_command.force = 1 ∧
        g.finger_a_command.speed = 1 ∧ g.finger_a_command.force = 1 ∧
        g.finger_b_command.speed = 1 ∧ g.finger_b_command.force = 1 ∧
        g.finger_c_command.speed = 1 ∧ g.finger_c_command.force = 1 := by
  obtain ⟨within, _, hctl⟩ := control_engaged noSolution engagedArm (sampleOf 1 0)
    (controllerOf 1 0) (Or.inl rfl) rfl rfl rfl
  have hg : gripperCommand (controllerOf 1 0) ∈ gripperCommands
      (engagedPublications noSolution engagedArm (controllerOf 1 0) within) := by
    rw [gripperCommands_engagedPublications]
    exact List.mem_singleton_self _
  exact ⟨_, _, _, hctl, hg,
    gripper_command_contents noSolution engagedArm (sampleOf 1 0) _ _ _ hctl hg⟩

/-! ## The tracked delta and the target pose -/

/-- The reset check re-anchors the tracker when the reset button is pressed or
the arm is not initialised. -/
theorem trackedState_reset (self : RobotArm) (c : Controller)
    (h : c.joystick.buttons.getD 1 0 = 2 ∨ self.initialized = false) :
    (trackedState self c).controller_last_pose = poseMsgToEigen c.pose ∧
    (trackedState self c).controller_frame_diff_pose.linear = (poseMsgToEigen c.pose).linear ∧
    (trackedState self c).controller_frame_diff_pose.translation
      = self.controller_frame_diff_pose.translation ∧
    (trackedState self c).initialized = true := by
  have h' : c.joystick.buttons.getD 1 0 = 2 ∨ (toggleActivation self c).initialized = false := h
  unfold trackedState storeReset
  rw [if_pos h']
  exact ⟨rfl, rfl, rfl, rfl⟩

/-- The reset check leaves the tracker alone otherwise. -/
theorem trackedState_keep (self : RobotArm) (c : Controller)
    (hb : c.joystick.buttons.getD 1 0 ≠ 2) (hi : self.initialized = true) :
    (trackedState self c).controller_last_pose = self.controller_last_pose ∧
    (trackedState self c).controller_frame_diff_pose = self.controller_frame_diff_pose := by
  have h' : ¬ (c.joystick.buttons.getD 1 0 = 2 ∨ (toggleActivation self c).initialized = false) := by
    rintro (h | h)
    · exact hb h
    · have : self.initialized = false := h
      rw [hi] at this
      cases this
  unfold trackedState storeReset
  rw [if_neg h']
  exact ⟨rfl, rfl⟩

@[simp] theorem trackedState_ee_last_valid_pose (self : RobotArm) (c : Controller) :
    (trackedState self c).ee_last_valid_pose = self.ee_last_valid_pose := by
  simp [trackedState, toggleActivation]

/-- When the tracker is anchored at the current controller pose, whose
orientation is a unit quaternion, the delta is the identity and the target is
the last valid pose. -/
theorem delta_of_anchored (self : RobotArm) (c : Controller)
    (hlast : (trackedState self c).controller_last_pose = poseMsgToEigen c.pose) :
    (deltaPose self c).translation = Vector3d.zero ∧
    (c.pose.orientation.x ^ 2 + c.pose.orientation.y ^ 2 + c.pose.orientation.z ^ 2
        + c.pose.orientation.w ^ 2 = 1 →
      (deltaPose self c).linear = Matrix3d.Identity ∧
      targetPose self c = self.ee_last_valid_pose) := by
  have htr : (deltaPose self c).translation = Vector3d.zero := by
    simp only [deltaPose, controllerDeltaPose, hlast, Vector3d.sub_self, Matrix3d.mulVec_zero]
  refine ⟨htr, ?_⟩
  intro hunit
  have hdet : (poseMsgToEigen c.pose).linear.determinant ≠ 0 := by
    rw [poseMsgToEigen_eq]
    rw [Quaterniond.determinant_toRotationMatrix]
    · norm_num
    · simp only [quatMsgToEigen]
      linarith
  have hlin : (deltaPose self c).linear = Matrix3d.Identity := by
    simp only [deltaPose, controllerDeltaPose, hlast, Affine3d.inverse]
    exact Matrix3d.inverse_mul_self _ hdet
  refine ⟨hlin, ?_⟩
  ext1
  · simp only [targetPose, eeTargetPose, hlin, Matrix3d.Identity_mul,
      trackedState_ee_last_valid_pose]
  · simp only [targetPose, eeTargetPose, htr, Vector3d.add_zero,
      trackedState_ee_last_valid_pose]

/-- C8. On every engaged matched sample the target pose `control` computes,
hands to the solver and broadcasts has, read in Mathlib, translation
`E.translation + F * (C.translation - C_prev.translation)` and rotation
`C.rotation⁻¹ * C_prev.rotation * E.rotation`, where `C` is the controller pose
of the sample, `E` the last valid pose, and `C_prev` and `F` are the last
controller pose and the frame-diff rotation as they stand after the reset
check; afterwards `controller_last_pose` is `C`, whatever the solver returns
and the gate decides. -/
theorem target_pose_formula (solver : KinematicsBase) (self : RobotArm)
    (msg : ViveSystem) (c : Controller)
    (hhand : self.controller_hand = 1 ∨ self.controller_hand = 2)
    (hm : matchedController self.controller_hand msg.controllers = some c)
    (hen : (toggleActivation self c).enabled = true)
    (hlen : self.joint_position_measured.length = 7) :
    ∃ st out, control solver self msg = some (st, out) ∧
      framePoses Frame.ee_target out = [targetPose self c] ∧
      ikSolutions solver self c = solver (targetPose self c) self.joint_position_measured ∧
      (targetPose self c).translation.toVec
        = self.ee_last_valid_pose.translation.toVec
          + (trackedState self c).controller_frame_diff_pose.linear.toMatrix.mulVec
              ((poseMsgToEigen c.pose).translation.toVec
                - (trackedState self c).controller_last_pose.translation.toVec) ∧
      (targetPose self c).linear.toMatrix
        = ((poseMsgToEigen c.pose).linear.toMatrix)⁻¹
          * (trackedState self c).controller_last_pose.linear.toMatrix
          * self.ee_last_valid_pose.linear.toMatrix ∧
      (poseMsgToEigen c.pose).translation.toVec
        = ![c.pose.position.x, c.pose.position.y, c.pose.position.z] ∧
      (targetPose self c).translation
        = self.ee_last_valid_pose.translation.add
            ((trackedState self c).controller_frame_diff_pose.linear.mulVec
              ((poseMsgToEigen c.pose).translation.sub
                (trackedState self c).controller_last_pose.translation)) ∧
      (targetPose self c).linear
        = ((poseMsgToEigen c.pose).linear.inverse.mul
            (trackedState self c).controller_last_pose.linear).mul
              self.ee_last_valid_pose.linear ∧
      (c.joystick.buttons.getD 1 0 = 2 ∨ self.initialized = false →
        (trackedState self c).controller_last_pose = poseMsgToEigen c.pose ∧
        (trackedState self c).controller_frame_diff_pose.linear
          = (poseMsgToEigen c.pose).linear) ∧
      (c.joystick.buttons.getD 1 0 ≠ 2 → self.initialized = true →
        (trackedState self c).controller_last_pose = self.controller_last_pose ∧
        (trackedState self c).controller_frame_diff_pose = self.controller_frame_diff_pose) ∧
      st.controller_last_pose = poseMsgToEigen c.pose := by
  obtain ⟨within, _, hctl⟩ := control_engaged solver self msg c hhand hm hen hlen
  have htr : (targetPose self c).translation
      = self.ee_last_valid_pose.translation.add
          ((trackedState self c).controller_frame_diff_pose.linear.mulVec
            ((poseMsgToEigen c.pose).translation.sub
              (trackedState self c).controller_last_pose.translation)) := by
    simp only [targetPose, eeTargetPose, deltaPose, controllerDeltaPose,
      trackedState_ee_last_valid_pose]
  have hlin : (targetPose self c).linear
      = ((poseMsgToEigen c.pose).linear.inverse.mul
          (trackedState self c).controller_last_pose.linear).mul
            self.ee_last_valid_pose.linear := by
    simp only [targetPose, eeTargetPose, deltaPose, controllerDeltaPose, Affine3d.inverse,
      trackedState_ee_last_valid_pose]
  refine ⟨_, _, hctl, framePoses_ee_target_engagedPublications solver self c within, rfl,
    ?_, ?_, ?_, htr, hlin, ?_, ?_, engagedState_controller_last_pose solver self c⟩
  · have hsub : ∀ a b : Vector3d, (a.sub b).toVec = a.toVec - b.toVec := by
      intro a b
      funext i
      fin_cases i <;> simp [Vector3d.toVec, Vector3d.sub]
    have hadd : ∀ a b : Vector3d, (a.add b).toVec = a.toVec + b.toVec := by
      intro a b
      funext i
      fin_cases i <;> simp [Vector3d.toVec, Vector3d.add]
    have hmv : ∀ (m : Matrix3d) (v : Vector3d),
        (m.mulVec v).toVec = m.toMatrix.mulVec v.toVec := by
      intro m v
      funext i
      fin_cases i <;>
        simp [Vector3d.toVec, Matrix3d.mulVec, Matrix3d.toMatrix, Matrix.mulVec,
          Matrix.dotProduct, Fin.sum_univ_three]
    rw [htr, hadd, hmv, hsub]
  · have hmul : ∀ a b : Matrix3d, (a.mul b).toMatrix = a.toMatrix * b.toMatrix := by
      intro a b
      ext i j
      fin_cases i <;> fin_cases j <;>
        simp [Matrix3d.mul, Matrix3d.toMatrix, Matrix.mul_apply, Fin.sum_univ_three]
    have hinv : ∀ m : Matrix3d, m.inverse.toMatrix = (m.toMatrix)⁻¹ := by
      intro m
      have hdet : m.toMatrix.det = m.determinant := by
        rw [Matrix.det_fin_three]
        simp [Matrix3d.toMatrix, Matrix3d.determinant]
        ring
      rw [Matrix.inv_def, Ring.inverse_eq_inv', hdet]
      ext i j
      fin_cases i <;> fin_cases j <;>
        simp [Matrix3d.inverse, Matrix3d.toMatrix, Matrix.adjugate_fin_three] <;> ring
    rw [hlin, hmul, hmul, hinv]
  · rw [poseMsgToEigen_eq]
    rfl
  · intro h
    exact ⟨(trackedState_reset self c h).1, (trackedState_reset self c h).2.1⟩
  · intro hb hi
    exact trackedState_keep self c hb hi

/-- Witness of C8: an arm whose stored poses all differ from the identity,
with `E = (quarter turn about z, (1, 2, 3))`, `C_prev = (quarter turn about x,
(1, 1, 1))`, `F` the quarter turn about y, and the controller at
`C = (third of a turn about the diagonal, (4, 6, 9))`: the target is
`E.translation + F * (C.translation - C_prev.translation) = (9, 7, 0)` with
rotation `C.rotation⁻¹ * C_prev.rotation * E.rotation`. -/
theorem target_pose_formula_witness :
    (skewArm.controller_hand = 1 ∨ skewArm.controller_hand = 2) ∧
    matchedController skewArm.controller_hand [skewController] = some skewController ∧
    (toggleActivation skewArm skewController).enabled = true ∧
    skewArm.joint_position_measured.length = 7 ∧
    ∃ st out, control farSolution skewArm { controllers := [skewController] } = some (st, out) ∧
      framePoses Frame.ee_target out = [⟨⟨0, 0, -1, 1, 0, 0, 0, -1, 0⟩, ⟨9, 7, 0⟩⟩] ∧
      (![9, 7, 0] : Fin 3 → ℚ)
        = ![1, 2, 3] + (!![0, 0, 1; 0, 1, 0; -1, 0, 0] : Matrix (Fin 3) (Fin 3) ℚ).mulVec
            (![4, 6, 9] - ![1, 1, 1]) ∧
      (!![0, 0, -1; 1, 0, 0; 0, -1, 0] : Matrix (Fin 3) (Fin 3) ℚ)
        = (!![0, 0, 1; 1, 0, 0; 0, 1, 0] : Matrix (Fin 3) (Fin 3) ℚ)⁻¹
          * !![1, 0, 0; 0, 0, -1; 0, 1, 0] * !![0, -1, 0; 1, 0, 0; 0, 0, 1] ∧
      st.controller_last_pose = ⟨⟨0, 0, 1, 1, 0, 0, 0, 1, 0⟩, ⟨4, 6, 9⟩⟩ := by
  obtain ⟨st, out, h1, h2, _, h4, h5, _, _, _, _, h10, h11⟩ :=
    target_pose_formula farSolution skewArm { controllers := [skewController] } skewController
      (Or.inl rfl) rfl rfl rfl
  have hC : poseMsgToEigen skewController.pose = ⟨⟨0, 0, 1, 1, 0, 0, 0, 1, 0⟩, ⟨4, 6, 9⟩⟩ := by
    rw [poseMsgToEigen_eq]
    simp only [skewController, quatMsgToEigen, pointMsgToEigen, Quaterniond.toRotationMatrix]
    norm_num
  obtain ⟨hP, hF⟩ := h10 (by simp [skewController]) rfl
  have hT : targetPose skewArm skewController
      = ⟨⟨0, 0, -1, 1, 0, 0, 0, -1, 0⟩, ⟨9, 7, 0⟩⟩ := by
    simp only [targetPose, deltaPose, trackedState, storeReset, toggleActivation,
      skewController, skewArm, eeTargetPose, controllerDeltaPose, poseMsgToEigen_eq,
      quatMsgToEigen, pointMsgToEigen, Quaterniond.toRotationMatrix, Affine3d.inverse,
      Matrix3d.inverse, Matrix3d.determinant, Matrix3d.mul, Matrix3d.mulVec, Vector3d.sub,
      Vector3d.add]
    norm_num [List.getD]
  rw [hT] at h2 h4 h5
  rw [hP, hF, hC] at h4
  rw [hP, hC] at h5
  exact ⟨Or.inl rfl, rfl, rfl, rfl, st, out, h1, h2, h4, h5, by rw [h11, hC]⟩

section HeapProof

variable {α : Type}

theorem Descends.le {p h : Nat} (d : Descends p h) : p ≤ h := by
  induction d with
  | refl => exact Nat.le_refl _
  | left _ ih => omega
  | right _ ih => omega

theorem Descends.parent {p h : Nat} (d : Descends p h) (hne : h ≠ p) :
    Descends p ((h - 1) / 2) := by
  cases d with
  | refl => exact absurd rfl hne
  | left d' =>
    rename_i h'
    have e : (2 * h' + 1 - 1) / 2 = h' := by omega
    rw [e]
    exact d'
  | right d' =>
    rename_i h'
    have e : (2 * h' + 2 - 1) / 2 = h' := by omega
    rw [e]
    exact d'

theorem getElem?_set_hole (v : List α) (h i : Nat) (x : α) (hh : h < v.length) :
    (v.set h x)[i]? = if i = h then some x else v[i]? := by
  rw [List.getElem?_set]
  by_cases e : h = i
  · subst e
    simp [hh]
  · have e' : ¬ i = h := fun e' => e e'.symm
    simp [e, e']

theorem getD_of_getElem? (v : List α) (i : Nat) (d a : α) (h : v[i]? = some a) :
    v.getD i d = a := by
  rw [List.getD_eq_getElem?_getD, h]
  rfl

theorem exists_getElem? (v : List α) (i : Nat) (h : i < v.length) : ∃ a, v[i]? = some a :=
  ⟨v[i], List.getElem?_eq_some.mpr ⟨h, rfl⟩⟩

theorem lt_of_getElem? (v : List α) (i : Nat) (a : α) (h : v[i]? = some a) : i < v.length :=
  (List.getElem?_eq_some.mp h).1

/-- Moving the element at `c` into the hole at `h` and the hole to `c` keeps
the elements of the filled vector. -/
theorem mem_set_swap (v : List α) (h c : Nat) (x vc : α) (hh : h < v.length)
    (hc : v[c]? = some vc) (hne : h ≠ c) (y : α) :
    y ∈ (v.set h vc).set c x ↔ y ∈ v.set h x := by
  have hcl : c < v.length := lt_of_getElem? v c vc hc
  have hcl' : c < (v.set h vc).length := by rw [List.length_set]; exact hcl
  simp only [List.mem_iff_getElem?]
  constructor
  · rintro ⟨n, hn⟩
    rw [getElem?_set_hole _ _ _ _ hcl', getElem?_set_hole _ _ _ _ hh] at hn
    by_cases e1 : n = c
    · refine ⟨h, ?_⟩
      rw [getElem?_set_hole _ _ _ _ hh]
      simpa [e1] using hn
    · by_cases e2 : n = h
      · refine ⟨c, ?_⟩
        rw [getElem?_set_hole _ _ _ _ hh]
        have hch : ¬ c = h := fun e => hne e.symm
        subst e2
        simp only [hne, if_false, if_true] at hn
        simp only [hch, if_false]
        rw [hc]
        exact hn
      · refine ⟨n, ?_⟩
        rw [getElem?_set_hole _ _ _ _ hh]
        simpa [e1, e2] using hn
  · rintro ⟨n, hn⟩
    rw [getElem?_set_hole _ _ _ _ hh] at hn
    by_cases e2 : n = h
    · refine ⟨c, ?_⟩
      rw [getElem?_set_hole _ _ _ _ hcl']
      simpa [e2] using hn
    · by_cases e1 : n = c
      · refine ⟨h, ?_⟩
        rw [getElem?_set_hole _ _ _ _ hcl', getElem?_set_hole _ _ _ _ hh]
        have hch : ¬ c = h := fun e => hne e.symm
        subst e1
        simp only [hch, if_false, hc] at hn
        simp only [hne, if_false, if_true]
        exact hn
      · refine ⟨n, ?_⟩
        rw [getElem?_set_hole _ _ _ _ hcl', getElem?_set_hole _ _ _ _ hh]
        simpa [e1, e2] using hn

theorem Descends.child {p h c : Nat} (d : Descends p h) (hc : 0 < c) (hp : (c - 1) / 2 = h) :
    Descends p c := by
  rcases Nat.even_or_odd c with ⟨m, hm⟩ | ⟨m, hm⟩
  · have e : c = 2 * h + 2 := by omega
    rw [e]
    exact Descends.right d
  · have e : c = 2 * h + 1 := by omega
    rw [e]
    exact Descends.left d

/-- The hole moves down to a child `c` that is smallest among the children of
the hole. -/
theorem HoleInv.move_down {k : α → ℚ} {p : Nat} {v : List α} {h : Nat}
    (inv : HoleInv k p v h) (c : Nat) (vc : α) (hc0 : 0 < c) (hcp : (c - 1) / 2 = h)
    (hvc : v[c]? = some vc)
    (hsib : ∀ j b, 0 < j → (j - 1) / 2 = h → j ≠ c → v[j]? = some b → k vc ≤ k b) :
    HoleInv k p (v.set h vc) c := by
  have hh := inv.lt
  have hph := inv.desc.le
  have hcl : c < v.length := lt_of_getElem? v c vc hvc
  have hch : c ≠ h := by omega
  refine ⟨by rw [List.length_set]; exact hcl, inv.desc.child hc0 hcp, ?_, ?_⟩
  · intro j a b hj hpj hjc hpjc ha hb
    rw [getElem?_set_hole _ _ _ _ hh] at ha hb
    by_cases e1 : (j - 1) / 2 = h
    · have hjh : j ≠ h := by omega
      simp only [e1, if_true, Option.some.injEq] at ha
      simp only [hjh, if_false] at hb
      subst ha
      exact hsib j b hj e1 hjc hb
    · by_cases e2 : j = h
      · subst e2
        simp only [if_true, Option.some.injEq] at hb
        simp only [e1, if_false] at ha
        subst hb
        have hne : j ≠ p := by omega
        exact inv.around hne c a vc hc0 hcp ha hvc
      · simp only [e1, if_false] at ha
        simp only [e2, if_false] at hb
        exact inv.off j a b hj hpj e2 e1 ha hb
  · intro _ j a b hj hpj ha hb
    rw [getElem?_set_hole _ _ _ _ hh] at ha hb
    have hjh : j ≠ h := by omega
    simp only [hcp, if_true, Option.some.injEq] at ha
    simp only [hjh, if_false] at hb
    subst ha
    have hpc : p ≤ (j - 1) / 2 := by omega
    exact inv.off j vc b hj hpc hjh (by omega) (by rw [hpj]; exact hvc) hb

/-- The hole moves up to its parent, whose key is above the key of the pending
value, itself at most the keys of the children of the hole. -/
theorem HoleInv.move_up {k : α → ℚ} {p : Nat} {v : List α} {h : Nat}
    (inv : HoleInv k p v h) (x vq : α) (hne : h ≠ p)
    (hvq : v[(h - 1) / 2]? = some vq) (hlt : k x ≤ k vq) :
    HoleInv k p (v.set h vq) ((h - 1) / 2) ∧
    ∀ j b, 0 < j → (j - 1) / 2 = (h - 1) / 2 → (v.set h vq)[j]? = some b → k x ≤ k b := by
  have hh := inv.lt
  have hph := inv.desc.le
  have hh0 : 0 < h := by omega
  have hq := inv.desc.parent hne
  have hpq := hq.le
  have hqh : (h - 1) / 2 ≠ h := by omega
  have hql : (h - 1) / 2 < v.length := by omega
  refine ⟨⟨by rw [List.length_set]; exact hql, hq, ?_, ?_⟩, ?_⟩
  · intro j a b hj hpj hjq hpjq ha hb
    rw [getElem?_set_hole _ _ _ _ hh] at ha hb
    have hjh : j ≠ h := fun e => hpjq (by rw [e])
    simp only [hjh, if_false] at hb
    by_cases e1 : (j - 1) / 2 = h
    · simp only [e1, if_true, Option.some.injEq] at ha
      subst ha
      exact inv.around hne j _ b hj e1 hvq hb
    · simp only [e1, if_false] at ha
      exact inv.off j a b hj hpj hjh e1 ha hb
  · intro hqp j a b hj hpj ha hb
    rw [getElem?_set_hole _ _ _ _ hh] at ha hb
    have hq0 : 0 < (h - 1) / 2 := by omega
    have hpp : p ≤ ((h - 1) / 2 - 1) / 2 := (hq.parent hqp).le
    have hppn : ((h - 1) / 2 - 1) / 2 ≠ h := by omega
    simp only [hppn, if_false] at ha
    have hqa : k a ≤ k vq :=
      inv.off ((h - 1) / 2) a vq hq0 hpp hqh hppn ha hvq
    by_cases e2 : j = h
    · simp only [e2, if_true, Option.some.injEq] at hb
      subst hb
      exact hqa
    · simp only [e2, if_false] at hb
      have : k vq ≤ k b := inv.off j vq b hj (by omega) e2 (by omega) (by rw [hpj]; exact hvq) hb
      exact le_trans hqa this
  · intro j b hj hpj hb
    rw [getElem?_set_hole _ _ _ _ hh] at hb
    by_cases e2 : j = h
    · simp only [e2, if_true, Option.some.injEq] at hb
      subst hb
      exact hlt
    · simp only [e2, if_false] at hb
      have : k vq ≤ k b := inv.off j vq b hj (by omega) e2 (by omega) (by rw [hpj]; exact hvq) hb
      exact le_trans hlt this

/-- Filling the hole with the pending value, which is in order with the parent
and the children of the hole, gives a heap from `p` on. -/
theorem HoleInv.fill {k : α → ℚ} {p : Nat} {v : List α} {h : Nat}
    (inv : HoleInv k p v h) (x : α)
    (habove : h ≠ p → ∀ a, v[(h - 1) / 2]? = some a → k a ≤ k x)
    (hbelow : ∀ j b, 0 < j → (j - 1) / 2 = h → v[j]? = some b → k x ≤ k b) :
    HeapOrderedFrom k p (v.set h x) := by
  have hh := inv.lt
  intro j a b hj hpj ha hb
  rw [getElem?_set_hole _ _ _ _ hh] at ha hb
  by_cases e1 : (j - 1) / 2 = h
  · have hjh : j ≠ h := by omega
    simp only [e1, if_true, Option.some.injEq] at ha
    simp only [hjh, if_false] at hb
    subst ha
    exact hbelow j b hj e1 hb
  · simp only [e1, if_false] at ha
    by_cases e2 : j = h
    · subst e2
      simp only [if_true, Option.some.injEq] at hb
      subst hb
      exact habove (by omega) a ha
    · simp only [e2, if_false] at hb
      exact inv.off j a b hj hpj e2 e1 ha hb

theorem push_heap_succ (comp : α → α → Bool) (fuel : Nat) (v : List α) (h top : Nat) (x : α) :
    push_heap comp (fuel + 1) v h top x
      = if h > top ∧ comp (v.getD ((h - 1) / 2) x) x = true then
          push_heap comp fuel (v.set h (v.getD ((h - 1) / 2) x)) ((h - 1) / 2) top x
        else v.set h x := rfl

theorem adjust_heap_descend_succ (comp : α → α → Bool) (len fuel : Nat) (v : List α)
    (h : Nat) (x : α) :
    adjust_heap_descend comp len (fuel + 1) v h x
      = if h < (len - 1) / 2 then
          adjust_heap_descend comp len fuel
            (v.set h (v.getD (if comp (v.getD (2 * (h + 1)) x) (v.getD (2 * (h + 1) - 1) x) = true
              then 2 * (h + 1) - 1 else 2 * (h + 1)) x))
            (if comp (v.getD (2 * (h + 1)) x) (v.getD (2 * (h + 1) - 1) x) = true
              then 2 * (h + 1) - 1 else 2 * (h + 1)) x
        else (v, h) := rfl

/-- More fuel than the hole index does not change `push_heap`: the loop of
`std::__push_heap` has ended by then. -/
theorem push_heap_fuel (comp : α → α → Bool) (top : Nat) (x : α) :
    ∀ (fuel : Nat) (v : List α) (h : Nat), h ≤ fuel →
      push_heap comp (fuel + 1) v h top x = push_heap comp fuel v h top x := by
  intro fuel
  induction fuel with
  | zero =>
    intro v h hf
    have h0 : h = 0 := by omega
    subst h0
    have hc : ¬ (0 > top ∧ comp (v.getD ((0 - 1) / 2) x) x = true) := by
      rintro ⟨h1, _⟩
      omega
    rw [push_heap_succ, if_neg hc]
    rfl
  | succ fuel ih =>
    intro v h hf
    rw [push_heap_succ comp (fuel + 1) v h top x, push_heap_succ comp fuel v h top x]
    by_cases hc : h > top ∧ comp (v.getD ((h - 1) / 2) x) x = true
    · rw [if_pos hc, if_pos hc]
      exact ih _ _ (by omega)
    · rw [if_neg hc, if_neg hc]

/-- More fuel than `len - h - 1` does not change `adjust_heap_descend`: the
first loop of `std::__adjust_heap` has ended by then. -/
theorem adjust_heap_descend_fuel (comp : α → α → Bool) (len : Nat) (x : α) :
    ∀ (fuel : Nat) (v : List α) (h : Nat), len ≤ fuel + h + 1 →
      adjust_heap_descend comp len (fuel + 1) v h x = adjust_heap_descend comp len fuel v h x := by
  intro fuel
  induction fuel with
  | zero =>
    intro v h hf
    have hc : ¬ h < (len - 1) / 2 := by omega
    rw [adjust_heap_descend_succ, if_neg hc]
    rfl
  | succ fuel ih =>
    intro v h hf
    rw [adjust_heap_descend_succ comp len (fuel + 1) v h x,
      adjust_heap_descend_succ comp len fuel v h x]
    by_cases hc : h < (len - 1) / 2
    · rw [if_pos hc, if_pos hc]
      apply ih
      split <;> omega
    · rw [if_neg hc, if_neg hc]

/-- The ascent of the hole: `std::__push_heap` ends on a heap from `p` on with
the elements of the filled vector. -/
theorem push_heap_spec (k : α → ℚ) (comp : α → α → Bool)
    (hcomp : OrdersByKey k comp) (x : α) (p : Nat) :
    ∀ (fuel : Nat) (v : List α) (h : Nat), h ≤ fuel → HoleInv k p v h →
      (∀ j b, 0 < j → (j - 1) / 2 = h → v[j]? = some b → k x ≤ k b) →
      (push_heap comp fuel v h p x).length = v.length ∧
      HeapOrderedFrom k p (push_heap comp fuel v h p x) ∧
      ∀ y, y ∈ push_heap comp fuel v h p x ↔ y ∈ v.set h x := by
  intro fuel
  induction fuel with
  | zero =>
    intro v h hf inv hbelow
    have hp := inv.desc.le
    have hstep : push_heap comp 0 v h p x = v.set h x := rfl
    rw [hstep]
    refine ⟨List.length_set _ _ _, inv.fill x ?_ hbelow, fun y => Iff.rfl⟩
    intro hne
    omega
  | succ fuel ih =>
    intro v h hf inv hbelow
    have hh := inv.lt
    have hp := inv.desc.le
    obtain ⟨vq, hvq⟩ := exists_getElem? v ((h - 1) / 2) (by omega)
    have hgd : v.getD ((h - 1) / 2) x = vq := getD_of_getElem? v _ x vq hvq
    by_cases hc : h > p ∧ comp (v.getD ((h - 1) / 2) x) x = true
    · have hne : h ≠ p := by omega
      have hlt : k x ≤ k vq := by
        have := hc.2
        rw [hgd] at this
        exact (hcomp vq x).1 this
      obtain ⟨inv', hbelow'⟩ := inv.move_up x vq hne hvq hlt
      obtain ⟨h1, h2, h3⟩ := ih (v.set h vq) ((h - 1) / 2) (by omega) inv' hbelow'
      have hstep : push_heap comp (fuel + 1) v h p x
          = push_heap comp fuel (v.set h vq) ((h - 1) / 2) p x := by
        have hc1 : comp vq x = true := by
          have := hc.2
          rwa [hgd] at this
        rw [push_heap]
        simp only [hgd, hc.1, hc1, and_self, if_true]
      rw [hstep]
      refine ⟨by rw [h1, List.length_set], h2, ?_⟩
      intro y
      rw [h3 y]
      exact mem_set_swap v h ((h - 1) / 2) x vq hh hvq (by omega) y
    · have hstep : push_heap comp (fuel + 1) v h p x = v.set h x := by
        rw [push_heap]
        simp only [hc, if_false]
      rw [hstep]
      refine ⟨List.length_set _ _ _, inv.fill x ?_ hbelow, fun y => Iff.rfl⟩
      intro hne a ha
      rw [hvq] at ha
      cases ha
      have hgt : h > p := by omega
      have hcf : ¬ comp vq x = true := by
        intro hct
        apply hc
        rw [hgd]
        exact ⟨hgt, hct⟩
      exact (hcomp vq x).2 (by simpa using hcf)

/-- The descent of the hole: the first loop of `std::__adjust_heap` ends with
the hole on a node without two children and keeps the elements of the filled
vector. -/
theorem adjust_heap_descend_spec (k : α → ℚ) (comp : α → α → Bool)
    (hcomp : OrdersByKey k comp) (x : α) (p len : Nat) :
    ∀ (fuel : Nat) (v : List α) (h : Nat), v.length = len → len ≤ fuel + h →
      HoleInv k p v h →
      (adjust_heap_descend comp len fuel v h x).1.length = len ∧
      HoleInv k p (adjust_heap_descend comp len fuel v h x).1
        (adjust_heap_descend comp len fuel v h x).2 ∧
      ¬ ((adjust_heap_descend comp len fuel v h x).2 < (len - 1) / 2) ∧
      ∀ y, y ∈ (adjust_heap_descend comp len fuel v h x).1.set
          (adjust_heap_descend comp len fuel v h x).2 x ↔ y ∈ v.set h x := by
  intro fuel
  induction fuel with
  | zero =>
    intro v h hl hf inv
    have := inv.lt
    omega
  | succ fuel ih =>
    intro v h hl hf inv
    have hh := inv.lt
    by_cases hlt : h < (len - 1) / 2
    · obtain ⟨vl, hvl⟩ := exists_getElem? v (2 * (h + 1) - 1) (by omega)
      obtain ⟨vr, hvr⟩ := exists_getElem? v (2 * (h + 1)) (by omega)
      have hgl : v.getD (2 * (h + 1) - 1) x = vl := getD_of_getElem? v _ x vl hvl
      have hgr : v.getD (2 * (h + 1)) x = vr := getD_of_getElem? v _ x vr hvr
      by_cases hc : comp vr vl = true
      · have hstep : adjust_heap_descend comp len (fuel + 1) v h x
            = adjust_heap_descend comp len fuel (v.set h vl) (2 * (h + 1) - 1) x := by
          rw [adjust_heap_descend]
          simp only [hlt, if_true, hgl, hgr, hc]
        have hkl : k vl ≤ k vr := (hcomp vr vl).1 hc
        have inv' : HoleInv k p (v.set h vl) (2 * (h + 1) - 1) := by
          refine inv.move_down (2 * (h + 1) - 1) vl (by omega) (by omega) hvl ?_
          intro j b hj hpj hjc hb
          have hj2 : j = 2 * (h + 1) := by omega
          rw [hj2, hvr] at hb
          cases hb
          exact hkl
        obtain ⟨h1, h2, h3, h4⟩ := ih (v.set h vl) (2 * (h + 1) - 1)
          (by rw [List.length_set]; exact hl) (by omega) inv'
        rw [hstep]
        refine ⟨h1, h2, h3, ?_⟩
        intro y
        rw [h4 y]
        exact mem_set_swap v h (2 * (h + 1) - 1) x vl hh hvl (by omega) y
      · have hstep : adjust_heap_descend comp len (fuel + 1) v h x
            = adjust_heap_descend comp len fuel (v.set h vr) (2 * (h + 1)) x := by
          rw [adjust_heap_descend]
          simp only [hlt, if_true, hgl, hgr, hc, if_false, Bool.false_eq_true]
        have hkl : k vr ≤ k vl := by
          apply (hcomp vr vl).2
          simpa using hc
        have inv' : HoleInv k p (v.set h vr) (2 * (h + 1)) := by
          refine inv.move_down (2 * (h + 1)) vr (by omega) (by omega) hvr ?_
          intro j b hj hpj hjc hb
          have hj2 : j = 2 * (h + 1) - 1 := by omega
          rw [hj2, hvl] at hb
          cases hb
          exact hkl
        obtain ⟨h1, h2, h3, h4⟩ := ih (v.set h vr) (2 * (h + 1))
          (by rw [List.length_set]; exact hl) (by omega) inv'
        rw [hstep]
        refine ⟨h1, h2, h3, ?_⟩
        intro y
        rw [h4 y]
        exact mem_set_swap v h (2 * (h + 1)) x vr hh hvr (by omega) y
    · have hstep : adjust_heap_descend comp len (fuel + 1) v h x = (v, h) := by
        rw [adjust_heap_descend]
        simp only [hlt, if_false]
      rw [hstep]
      exact ⟨hl, inv, hlt, fun y => Iff.rfl⟩

/-- Running `std::__adjust_heap` on node `p`, above which the heap order already
holds, extends the heap order to `p` and keeps the elements. -/
theorem adjust_heap_spec (k : α → ℚ) (comp : α → α → Bool)
    (hcomp : OrdersByKey k comp) (p : Nat) (v : List α) (x : α)
    (hx : v[p]? = some x) (hheap : HeapOrderedFrom k (p + 1) v) :
    (adjust_heap comp v p v.length x).length = v.length ∧
    HeapOrderedFrom k p (adjust_heap comp v p v.length x) ∧
    ∀ y, y ∈ adjust_heap comp v p v.length x ↔ y ∈ v := by
  have hpl : p < v.length := lt_of_getElem? v p x hx
  have hself : v.set p x = v := by
    apply List.ext_getElem?
    intro i
    rw [getElem?_set_hole v p i x hpl]
    by_cases e : i = p
    · rw [if_pos e, e, hx]
    · rw [if_neg e]
  have inv0 : HoleInv k p v p := by
    refine ⟨hpl, Descends.refl, ?_, ?_⟩
    · intro j a b hj hpj _ hne ha hb
      exact hheap j a b hj (by omega) ha hb
    · intro hne
      exact absurd rfl hne
  obtain ⟨d1, d2, d3, d4⟩ := adjust_heap_descend_spec k comp hcomp x p v.length v.length v p rfl
    (by omega) inv0
  rw [hself] at d4
  generalize hr : adjust_heap_descend comp v.length v.length v p x = r at d1 d2 d3 d4
  have hh := d2.lt
  by_cases hs : v.length % 2 = 0 ∧ r.2 = (v.length - 2) / 2
  · obtain ⟨vc, hvc⟩ := exists_getElem? r.1 (2 * (r.2 + 1) - 1) (by omega)
    have hgc : r.1.getD (2 * (r.2 + 1) - 1) x = vc := getD_of_getElem? _ _ x vc hvc
    have hstep : adjust_heap comp v p v.length x
        = push_heap comp (2 * (r.2 + 1) - 1) (r.1.set r.2 vc) (2 * (r.2 + 1) - 1) p x := by
      unfold adjust_heap
      simp only [hr]
      rw [if_pos hs, hgc]
    have inv' : HoleInv k p (r.1.set r.2 vc) (2 * (r.2 + 1) - 1) := by
      refine d2.move_down (2 * (r.2 + 1) - 1) vc (by omega) (by omega) hvc ?_
      intro j b hj hpj hjc hb
      have := lt_of_getElem? _ _ _ hb
      omega
    obtain ⟨h1, h2, h3⟩ := push_heap_spec k comp hcomp x p (2 * (r.2 + 1) - 1)
      (r.1.set r.2 vc) (2 * (r.2 + 1) - 1) (Nat.le_refl _) inv' (by
        intro j b hj hpj hb
        have hjl := lt_of_getElem? _ _ _ hb
        rw [List.length_set] at hjl
        omega)
    rw [hstep]
    refine ⟨by rw [h1, List.length_set, d1], h2, ?_⟩
    intro y
    rw [h3 y, mem_set_swap r.1 r.2 (2 * (r.2 + 1) - 1) x vc hh hvc (by omega) y]
    exact d4 y
  · have hstep : adjust_heap comp v p v.length x = push_heap comp r.2 r.1 r.2 p x := by
      unfold adjust_heap
      simp only [hr]
      rw [if_neg hs]
    obtain ⟨h1, h2, h3⟩ := push_heap_spec k comp hcomp x p r.2 r.1 r.2 (Nat.le_refl _) d2 (by
        intro j b hj hpj hb
        have hjl := lt_of_getElem? _ _ _ hb
        omega)
    rw [hstep]
    refine ⟨by rw [h1, d1], h2, ?_⟩
    intro y
    rw [h3 y]
    exact d4 y

/-- The loop of `std::__make_heap` from `p` down to `0` ends on a heap with the
elements of the vector. -/
theorem make_heap_loop_spec (k : α → ℚ) (comp : α → α → Bool)
    (hcomp : OrdersByKey k comp) :
    ∀ (p : Nat) (v : List α), p < v.length → HeapOrderedFrom k (p + 1) v →
      (make_heap_loop comp v.length p v).length = v.length ∧
      HeapOrderedFrom k 0 (make_heap_loop comp v.length p v) ∧
      ∀ y, y ∈ make_heap_loop comp v.length p v ↔ y ∈ v := by
  intro p
  induction p with
  | zero =>
    intro v hp hheap
    obtain ⟨x, hx⟩ := exists_getElem? v 0 hp
    have hstep : make_heap_loop comp v.length 0 v = adjust_heap comp v 0 v.length x := by
      rw [make_heap_loop, hx]
    rw [hstep]
    exact adjust_heap_spec k comp hcomp 0 v x hx hheap
  | succ p ih =>
    intro v hp hheap
    obtain ⟨x, hx⟩ := exists_getElem? v (p + 1) hp
    obtain ⟨a1, a2, a3⟩ := adjust_heap_spec k comp hcomp (p + 1) v x hx hheap
    have hstep : make_heap_loop comp v.length (p + 1) v
        = make_heap_loop comp v.length p (adjust_heap comp v (p + 1) v.length x) := by
      rw [make_heap_loop, hx]
    obtain ⟨b1, b2, b3⟩ := ih (adjust_heap comp v (p + 1) v.length x) (by omega) a2
    rw [a1] at b1 b2 b3
    rw [hstep]
    exact ⟨b1, b2, fun y => (b3 y).trans (a3 y)⟩

/-- Running `std::make_heap` gives a heap with the elements of the vector. -/
theorem make_heap_spec (k : α → ℚ) (comp : α → α → Bool)
    (hcomp : OrdersByKey k comp) (v : List α) :
    (make_heap comp v).length = v.length ∧
    HeapOrderedFrom k 0 (make_heap comp v) ∧
    ∀ y, y ∈ make_heap comp v ↔ y ∈ v := by
  unfold make_heap
  by_cases hl : v.length < 2
  · rw [if_pos hl]
    refine ⟨rfl, ?_, fun y => Iff.rfl⟩
    intro j a b hj _ _ hb
    have := lt_of_getElem? _ _ _ hb
    omega
  · rw [if_neg hl]
    apply make_heap_loop_spec k comp hcomp ((v.length - 2) / 2) v (by omega)
    intro j a b hj hpj _ hb
    have := lt_of_getElem? _ _ _ hb
    omega

/-- The front of a heap has the smallest key. -/
theorem HeapOrderedFrom.front_le {k : α → ℚ} {v : List α} (hheap : HeapOrderedFrom k 0 v)
    (t : α) (ht : v[0]? = some t) : ∀ (j : Nat) (b : α), v[j]? = some b → k t ≤ k b := by
  intro j
  induction j using Nat.strong_induction_on with
  | _ j ih =>
    intro b hb
    by_cases hj : j = 0
    · subst hj
      rw [ht] at hb
      cases hb
      exact le_refl _
    · have hjl := lt_of_getElem? _ _ _ hb
      obtain ⟨a, ha⟩ := exists_getElem? v ((j - 1) / 2) (by omega)
      have h1 := ih ((j - 1) / 2) (by omega) a ha
      have h2 := hheap j a b (by omega) (Nat.zero_le _) ha hb
      exact le_trans h1 h2

/-- The top of a `std::priority_queue` built from a non-empty range, with a
comparison that orders by decreasing key, is an element of the range of
smallest key. -/
theorem priority_queue_top_min (k : α → ℚ) (comp : α → α → Bool)
    (hcomp : OrdersByKey k comp) (v : List α) (hv : v ≠ []) :
    ∃ t, priority_queue_top comp v = some t ∧ t ∈ v ∧ ∀ y ∈ v, k t ≤ k y := by
  obtain ⟨h1, h2, h3⟩ := make_heap_spec k comp hcomp v
  have hpos : 0 < (make_heap comp v).length := by
    rw [h1]
    exact List.length_pos.mpr hv
  obtain ⟨t, ht⟩ := exists_getElem? (make_heap comp v) 0 hpos
  refine ⟨t, ?_, ?_, ?_⟩
  · unfold priority_queue_top
    rw [List.head?_eq_getElem?]
    exact ht
  · exact (h3 t).mp (List.mem_iff_getElem?.mpr ⟨0, ht⟩)
  · intro y hy
    obtain ⟨n, hn⟩ := List.mem_iff_getElem?.mp ((h3 y).mpr hy)
    exact h2.front_le t ht n y hn

end HeapProof

/-! ## Solution selection -/

/-- The comparison of `SeedDistanceFunctor` orders by decreasing squared
distance to the seed. -/
theorem SeedDistanceFunctor_iff (seed a b : List ℚ) :
    SeedDistanceFunctor seed a b = true ↔ squaredDistance b seed < squaredDistance a seed := by
  simp [SeedDistanceFunctor, sqrt_lt_sqrt, accumulateSquares_eq]

theorem SeedDistanceFunctorOrEqual_iff (seed a b : List ℚ) :
    SeedDistanceFunctorOrEqual seed a b = true
      ↔ squaredDistance b seed ≤ squaredDistance a seed := by
  simp [SeedDistanceFunctorOrEqual, sqrt_lt_sqrt, accumulateSquares_eq]

/-- The strict comparison orders by decreasing squared distance to the seed. -/
theorem SeedDistanceFunctor_ordersByKey (seed : List ℚ) :
    OrdersByKey (fun s => squaredDistance s seed) (SeedDistanceFunctor seed) := by
  intro a b
  constructor
  · intro h
    exact le_of_lt ((SeedDistanceFunctor_iff seed a b).mp h)
  · intro h
    have hn : ¬ SeedDistanceFunctor seed a b = true := by simp [h]
    rw [SeedDistanceFunctor_iff] at hn
    exact not_lt.mp hn

/-- The non-strict comparison orders by decreasing squared distance to the
seed. -/
theorem SeedDistanceFunctorOrEqual_ordersByKey (seed : List ℚ) :
    OrdersByKey (fun s => squaredDistance s seed) (SeedDistanceFunctorOrEqual seed) := by
  intro a b
  constructor
  · intro h
    exact (SeedDistanceFunctorOrEqual_iff seed a b).mp h
  · intro h
    have hn : ¬ SeedDistanceFunctorOrEqual seed a b = true := by simp [h]
    rw [SeedDistanceFunctorOrEqual_iff] at hn
    exact le_of_lt (not_le.mp hn)

/-- The heap `std::make_heap` builds from six elements when the five
comparisons it makes all fail. -/
theorem make_heap_six_of_false {α : Type} (comp : α → α → Bool) (a0 a1 a2 a3 a4 a5 : α)
    (h52 : comp a5 a2 = false) (h43 : comp a4 a3 = false) (h41 : comp a4 a1 = false)
    (h54 : comp a5 a4 = false) (h20 : comp a2 a0 = false) :
    make_heap comp [a0, a1, a2, a3, a4, a5] = [a5, a4, a2, a3, a1, a0] := by
  simp [make_heap, make_heap_loop, adjust_heap, adjust_heap_descend, push_heap, h52, h43, h41,
    h54, h20]

/-- The heap `std::make_heap` builds from six elements when its comparisons of
equal keys hold. -/
theorem make_heap_six_of_true {α : Type} (comp : α → α → Bool) (a0 a1 a2 a3 a4 a5 : α)
    (h52 : comp a5 a2 = true) (h43 : comp a4 a3 = true) (h31 : comp a3 a1 = false)
    (h23 : comp a2 a3 = true) (h41 : comp a4 a1 = false) (h40 : comp a4 a0 = false) :
    make_heap comp [a0, a1, a2, a3, a4, a5] = [a3, a4, a2, a1, a0, a5] := by
  simp [make_heap, make_heap_loop, adjust_heap, adjust_heap_descend, push_heap, h52, h43, h31,
    h23, h41, h40]

theorem priority_queue_top_six :
    priority_queue_top (SeedDistanceFunctor [0, 0, 0, 0, 0, 0, 0]) sixCandidates
      = some [0, 0, 0, 1 / 10, 0, 0, 0] := by
  unfold priority_queue_top sixCandidates
  rw [make_heap_six_of_false]
  · rfl
  all_goals norm_num [SeedDistanceFunctor, sqrt_lt_sqrt, accumulateSquares]

theorem priority_queue_top_six_orEqual :
    priority_queue_top (SeedDistanceFunctorOrEqual [0, 0, 0, 0, 0, 0, 0]) sixCandidates
      = some [0, 1 / 10, 0, 0, 0, 0, 0] := by
  unfold priority_queue_top sixCandidates
  rw [make_heap_six_of_true]
  · rfl
  all_goals norm_num [SeedDistanceFunctorOrEqual, sqrt_lt_sqrt, accumulateSquares]

theorem firstMinimal_six :
    firstMinimal [0, 0, 0, 0, 0, 0, 0] sixCandidates = some [1 / 10, 0, 0, 0, 0, 0, 0] := by
  simp [firstMinimal, squaredDistance, sixCandidates]
  norm_num

theorem priority_queue_top_two :
    priority_queue_top (SeedDistanceFunctor [1 / 10, 1 / 10, 1 / 10, 1 / 10, 1 / 10, 1 / 10, 1 / 10])
      [[0, 0, 0, 0, 0, 0, 0], [1, 1, 1, 1, 1, 1, 1]]
      = some [0, 0, 0, 0, 0, 0, 0] := by
  simp [priority_queue_top, make_heap, make_heap_loop, adjust_heap, adjust_heap_descend,
    push_heap, SeedDistanceFunctor, sqrt_lt_sqrt, accumulateSquares]
  norm_num

/-- The top of the queue built with `SeedDistanceFunctor seed` on a non-empty
candidate list is a candidate whose squared distance to the seed is
smallest. -/
theorem priority_queue_top_SeedDistanceFunctor (seed : List ℚ) (sols : List (List ℚ))
    (hne : sols ≠ []) :
    ∃ top, priority_queue_top (SeedDistanceFunctor seed) sols = some top ∧ top ∈ sols ∧
      ∀ s ∈ sols, squaredDistance top seed ≤ squaredDistance s seed :=
  priority_queue_top_min (fun s => squaredDistance s seed) (SeedDistanceFunctor seed)
    (SeedDistanceFunctor_ordersByKey seed) sols hne

/-- The selection of the spec is a candidate at the minimal distance. -/
theorem firstMinimal_spec (seed : List ℚ) (sols : List (List ℚ)) (hne : sols ≠ []) :
    ∃ f, firstMinimal seed sols = some f ∧ f ∈ sols ∧
      ∀ s ∈ sols, squaredDistance f seed ≤ squaredDistance s seed := by
  induction sols with
  | nil => exact absurd rfl hne
  | cons a rest ih =>
    cases rest with
    | nil =>
      refine ⟨a, rfl, List.mem_singleton_self _, ?_⟩
      intro s hs
      rw [List.mem_singleton] at hs
      rw [hs]
    | cons b tail =>
      obtain ⟨t, ht, htm, hmin⟩ := ih (List.cons_ne_nil _ _)
      by_cases hlt : squaredDistance t seed < squaredDistance a seed
      · refine ⟨t, ?_, List.mem_cons_of_mem _ htm, ?_⟩
        · simp only [firstMinimal] at ht ⊢
          rw [ht]
          simp only [hlt, if_true]
        · intro s hs
          rcases List.mem_cons.mp hs with rfl | hs
          · exact le_of_lt hlt
          · exact hmin s hs
      · refine ⟨a, ?_, List.mem_cons_self _ _, ?_⟩
        · simp only [firstMinimal] at ht ⊢
          rw [ht]
          simp only [hlt, if_false]
        · intro s hs
          rcases List.mem_cons.mp hs with rfl | hs
          · exact le_refl _
          · exact le_trans (not_lt.mp hlt) (hmin s hs)

/-- C3, counterexample. Six candidates, of which the third to the sixth are at
the minimal distance `1/10` of the seed: the first candidate at the minimal
distance is the third one, but the queue puts the sixth on top, and `control`
writes the sixth to the kinematic state.  With the non-strict comparison the
queue puts the fourth on top, again not the third. -/
theorem tie_break_not_first_candidate :
    ikSolutions sixSolutions engagedArm (controllerOf 1 0) = sixCandidates ∧
    firstMinimal engagedArm.joint_position_measured sixCandidates
      = some [1 / 10, 0, 0, 0, 0, 0, 0] ∧
    squaredDistance [1 / 10, 0, 0, 0, 0, 0, 0] engagedArm.joint_position_measured
      = squaredDistance [0, 0, 0, 1 / 10, 0, 0, 0] engagedArm.joint_position_measured ∧
    priority_queue_top (SeedDistanceFunctor engagedArm.joint_position_measured) sixCandidates
      = some [0, 0, 0, 1 / 10, 0, 0, 0] ∧
    priority_queue_top (SeedDistanceFunctorOrEqual engagedArm.joint_position_measured)
      sixCandidates = some [0, 1 / 10, 0, 0, 0, 0, 0] ∧
    ∃ st out, control sixSolutions engagedArm (sampleOf 1 0) = some (st, out) ∧
      st.joint_values = [0, 0, 0, 1 / 10, 0, 0, 0] ∧
      st.joint_values ≠ [1 / 10, 0, 0, 0, 0, 0, 0] := by
  obtain ⟨within, _, hctl⟩ := control_engaged sixSolutions engagedArm (sampleOf 1 0)
    (controllerOf 1 0) (Or.inl rfl) rfl rfl rfl
  have hsols : ikSolutions sixSolutions engagedArm (controllerOf 1 0) = sixCandidates := rfl
  have hseed : engagedArm.joint_position_measured = [0, 0, 0, 0, 0, 0, 0] := rfl
  have hjv : (engagedState sixSolutions engagedArm (controllerOf 1 0)).joint_values
      = [0, 0, 0, 1 / 10, 0, 0, 0] := by
    rw [engagedState_joint_values, hsols, if_neg (by simp [sixCandidates]), hseed,
      priority_queue_top_six]
    rfl
  rw [hseed]
  refine ⟨hsols, firstMinimal_six, ?_, priority_queue_top_six, priority_queue_top_six_orEqual,
    _, _, hctl, hjv, ?_⟩
  · norm_num [squaredDistance]
  · rw [hjv]
    norm_num

/-- C3 (amended). On every engaged matched sample with a non-empty candidate
set, the candidate `control` writes to the kinematic state is the top of the
priority queue built with `SeedDistanceFunctor(seed)`: it is one of the
candidates, its Euclidean distance to the seed (the measured joint state) is at
most that of every candidate, hence equal to that of the first candidate at the
minimal distance, and a candidate strictly closer than every other one is the
one selected; the same holds of the top of the queue when the comparison is
read as non-strict.  The order of the solver does not decide among candidates
at the minimal distance: for `sixCandidates` the first candidate at the minimal
distance is the third, and the top of the queue is the sixth with the strict
comparison and the fourth with the non-strict one.  For the candidates
`[[0,…,0], [1,…,1]]` and the seed `[0.1,…,0.1]` the first is selected. -/
theorem selected_solution_minimal (solver : KinematicsBase) (self : RobotArm)
    (msg : ViveSystem) (c : Controller)
    (hhand : self.controller_hand = 1 ∨ self.controller_hand = 2)
    (hm : matchedController self.controller_hand msg.controllers = some c)
    (hen : (toggleActivation self c).enabled = true)
    (hlen : self.joint_position_measured.length = 7)
    (hne : ikSolutions solver self c ≠ []) :
    (∃ st out top first, control solver self msg = some (st, out) ∧
      priority_queue_top (SeedDistanceFunctor self.joint_position_measured)
        (ikSolutions solver self c) = some top ∧
      st.joint_values = top ∧
      top ∈ ikSolutions solver self c ∧
      (∀ s ∈ ikSolutions solver self c,
        Real.sqrt ((squaredDistance top self.joint_position_measured : ℚ) : ℝ)
          ≤ Real.sqrt ((squaredDistance s self.joint_position_measured : ℚ) : ℝ)) ∧
      firstMinimal self.joint_position_measured (ikSolutions solver self c) = some first ∧
      Real.sqrt ((squaredDistance top self.joint_position_measured : ℚ) : ℝ)
        = Real.sqrt ((squaredDistance first self.joint_position_measured : ℚ) : ℝ) ∧
      (∀ s ∈ ikSolutions solver self c,
        (∀ t ∈ ikSolutions solver self c, t ≠ s →
          Real.sqrt ((squaredDistance s self.joint_position_measured : ℚ) : ℝ)
            < Real.sqrt ((squaredDistance t self.joint_position_measured : ℚ) : ℝ)) →
        top = s)) ∧
    (∃ top, priority_queue_top (SeedDistanceFunctorOrEqual self.joint_position_measured)
        (ikSolutions solver self c) = some top ∧
      top ∈ ikSolutions solver self c ∧
      ∀ s ∈ ikSolutions solver self c,
        Real.sqrt ((squaredDistance top self.joint_position_measured : ℚ) : ℝ)
          ≤ Real.sqrt ((squaredDistance s self.joint_position_measured : ℚ) : ℝ)) ∧
    (firstMinimal [0, 0, 0, 0, 0, 0, 0] sixCandidates = some [1 / 10, 0, 0, 0, 0, 0, 0] ∧
      priority_queue_top (SeedDistanceFunctor [0, 0, 0, 0, 0, 0, 0]) sixCandidates
        = some [0, 0, 0, 1 / 10, 0, 0, 0] ∧
      priority_queue_top (SeedDistanceFunctorOrEqual [0, 0, 0, 0, 0, 0, 0]) sixCandidates
        = some [0, 1 / 10, 0, 0, 0, 0, 0]) ∧
    priority_queue_top
      (SeedDistanceFunctor [1 / 10, 1 / 10, 1 / 10, 1 / 10, 1 / 10, 1 / 10, 1 / 10])
      [[0, 0, 0, 0, 0, 0, 0], [1, 1, 1, 1, 1, 1, 1]] = some [0, 0, 0, 0, 0, 0, 0] := by
  refine ⟨?_, ?_, ⟨firstMinimal_six, priority_queue_top_six, priority_queue_top_six_orEqual⟩,
    priority_queue_top_two⟩
  · obtain ⟨within, _, hctl⟩ := control_engaged solver self msg c hhand hm hen hlen
    obtain ⟨top, htop, hmem, hmin⟩ :=
      priority_queue_top_SeedDistanceFunctor self.joint_position_measured
        (ikSolutions solver self c) hne
    obtain ⟨first, hfirst, hfmem, hfmin⟩ :=
      firstMinimal_spec self.joint_position_measured (ikSolutions solver self c) hne
    have hle : ∀ s ∈ ikSolutions solver self c,
        Real.sqrt ((squaredDistance top self.joint_position_measured : ℚ) : ℝ)
          ≤ Real.sqrt ((squaredDistance s self.joint_position_measured : ℚ) : ℝ) := by
      intro s hs
      apply Real.sqrt_le_sqrt
      exact_mod_cast hmin s hs
    have heq : squaredDistance top self.joint_position_measured
        = squaredDistance first self.joint_position_measured :=
      le_antisymm (hmin first hfmem) (hfmin top hmem)
    refine ⟨_, _, top, first, hctl, htop, ?_, hmem, hle, hfirst, by rw [heq], ?_⟩
    · rw [engagedState_joint_values, if_neg hne, htop]
      rfl
    · intro s hs huniq
      by_contra hts
      exact absurd (hle s hs) (not_le.mpr (huniq top hmem hts))
  · obtain ⟨top, htop, hmem, hmin⟩ :=
      priority_queue_top_min (fun s => squaredDistance s self.joint_position_measured)
        (SeedDistanceFunctorOrEqual self.joint_position_measured)
        (SeedDistanceFunctorOrEqual_ordersByKey self.joint_position_measured)
        (ikSolutions solver self c) hne
    refine ⟨top, htop, hmem, ?_⟩
    intro s hs
    apply Real.sqrt_le_sqrt
    exact_mod_cast hmin s hs

/-- Witness of C3 (amended): the candidates `[[0,…,0], [1,…,1]]` with every
joint measured at `1/10`. -/
theorem selected_solution_minimal_witness :
    (seededArm.controller_hand = 1 ∨ seededArm.controller_hand = 2) ∧
    matchedController seededArm.controller_hand (sampleOf 1 0).controllers
      = some (controllerOf 1 0) ∧
    (toggleActivation seededArm (controllerOf 1 0)).enabled = true ∧
    seededArm.joint_position_measured.length = 7 ∧
    ikSolutions twoSolutions seededArm (controllerOf 1 0) ≠ [] ∧
    ∃ st out top first, control twoSolutions seededArm (sampleOf 1 0) = some (st, out) ∧
      priority_queue_top (SeedDistanceFunctor seededArm.joint_position_measured)
        (ikSolutions twoSolutions seededArm (controllerOf 1 0)) = some top ∧
      st.joint_values = top ∧
      top ∈ ikSolutions twoSolutions seededArm (controllerOf 1 0) ∧
      (∀ s ∈ ikSolutions twoSolutions seededArm (controllerOf 1 0),
        Real.sqrt ((squaredDistance top seededArm.joint_position_measured : ℚ) : ℝ)
          ≤ Real.sqrt ((squaredDistance s seededArm.joint_position_measured : ℚ) : ℝ)) ∧
      firstMinimal seededArm.joint_position_measured
        (ikSolutions twoSolutions seededArm (controllerOf 1 0)) = some first ∧
      Real.sqrt ((squaredDistance top seededArm.joint_position_measured : ℚ) : ℝ)
        = Real.sqrt ((squaredDistance first seededArm.joint_position_measured : ℚ) : ℝ) ∧
      (∀ s ∈ ikSolutions twoSolutions seededArm (controllerOf 1 0),
        (∀ t ∈ ikSolutions twoSolutions seededArm (controllerOf 1 0), t ≠ s →
          Real.sqrt ((squaredDistance s seededArm.joint_position_measured : ℚ) : ℝ)
            < Real.sqrt ((squaredDistance t seededArm.joint_position_measured : ℚ) : ℝ)) →
        top = s) :=
  have hne : ikSolutions twoSolutions seededArm (controllerOf 1 0) ≠ [] := by
    simp [ikSolutions, twoSolutions]
  ⟨Or.inl rfl, rfl, rfl, rfl, hne,
    (selected_solution_minimal twoSolutions seededArm (sampleOf 1 0) (controllerOf 1 0)
      (Or.inl rfl) rfl rfl rfl hne).1⟩

/-! ## Conversion of the orientation message -/

/-- C11, the code at the failing input. The conversion does not preserve the
components: for every message `m` the quaternion `quatMsgToEigen m` has
`w = m.x`, `x = m.y`, `y = m.z` and `z = m.w`.  For the identity orientation
`(x, y, z, w) = (0, 0, 0, 1)` it is the quaternion with `z = 1` and `w = 0`,
whose `w` and `z` differ from those of the message, and `poseMsgToEigen` gives
the half turn about the z axis instead of the identity rotation. -/
theorem quatMsgToEigen_permutes_components :
    (∀ m : Quaternion,
      (quatMsgToEigen m).w = m.x ∧ (quatMsgToEigen m).x = m.y ∧
      (quatMsgToEigen m).y = m.z ∧ (quatMsgToEigen m).z = m.w) ∧
    quatMsgToEigen ⟨0, 0, 0, 1⟩ = { w := 0, x := 0, y := 0, z := 1 } ∧
    (quatMsgToEigen ⟨0, 0, 0, 1⟩).w ≠ (⟨0, 0, 0, 1⟩ : Quaternion).w ∧
    (quatMsgToEigen ⟨0, 0, 0, 1⟩).z ≠ (⟨0, 0, 0, 1⟩ : Quaternion).z ∧
    (poseMsgToEigen { position := ⟨0, 0, 0⟩, orientation := ⟨0, 0, 0, 1⟩ }).linear
      = ⟨-1, 0, 0, 0, -1, 0, 0, 0, 1⟩ ∧
    (poseMsgToEigen { position := ⟨0, 0, 0⟩, orientation := ⟨0, 0, 0, 1⟩ }).linear
      ≠ Matrix3d.Identity := by
  have hlin : (poseMsgToEigen { position := ⟨0, 0, 0⟩, orientation := ⟨0, 0, 0, 1⟩ }).linear
      = ⟨-1, 0, 0, 0, -1, 0, 0, 0, 1⟩ := by
    rw [poseMsgToEigen_eq]
    simp only [quatMsgToEigen, Quaterniond.toRotationMatrix]
    norm_num
  refine ⟨fun m => ⟨rfl, rfl, rfl, rfl⟩, rfl, ?_, ?_, hlin, ?_⟩
  · simp [quatMsgToEigen]
  · simp [quatMsgToEigen]
  · rw [hlin]
    intro h
    have h00 := congrArg Matrix3d.m00 h
    simp only [Matrix3d.Identity] at h00
    norm_num at h00

/-! ## Re-engaging the clutch -/

theorem engagedState_enabled (solver : KinematicsBase) (self : RobotArm) (c : Controller) :
    (engagedState solver self c).enabled = (toggleActivation self c).enabled := by
  simp only [engagedState, trackedState, pickSolution_enabled, storeReset_enabled]

theorem engagedState_hand (solver : KinematicsBase) (self : RobotArm) (c : Controller) :
    (engagedState solver self c).controller_hand = self.controller_hand := by
  simp [engagedState, trackedState]

theorem engagedState_measured (solver : KinematicsBase) (self : RobotArm) (c : Controller) :
    (engagedState solver self c).joint_position_measured = self.joint_position_measured := by
  simp [engagedState, trackedState]

/-- The three ways a call of `control` returns: at once, after the clutch
update of a disengaged sample, or at the end of an engaged sample. -/
theorem control_cases (solver : KinematicsBase) (self : RobotArm) (msg : ViveSystem)
    (st : RobotArm) (out : List Publication) (h : control solver self msg = some (st, out)) :
    (st = self ∧ out = []) ∨
    (∃ c, matchedController self.controller_hand msg.controllers = some c ∧
      (toggleActivation self c).enabled = false ∧ st = toggleActivation self c ∧ out = []) ∨
    (∃ c within, matchedController self.controller_hand msg.controllers = some c ∧
      (toggleActivation self c).enabled = true ∧
      st = engagedState solver self c ∧ out = engagedPublications solver self c within) := by
  by_cases hhand : self.controller_hand = 1 ∨ self.controller_hand = 2
  · cases hm : matchedController self.controller_hand msg.controllers with
    | none =>
      rw [control_unmatched solver self msg hm] at h
      simp only [Option.some.injEq, Prod.mk.injEq] at h
      exact Or.inl ⟨h.1.symm, h.2.symm⟩
    | some c =>
      cases hen : (toggleActivation self c).enabled with
      | false =>
        rw [control_disengaged solver self msg c hhand hm hen] at h
        simp only [Option.some.injEq, Prod.mk.injEq] at h
        exact Or.inr (Or.inl ⟨c, rfl, hen, h.1.symm, h.2.symm⟩)
      | true =>
        rcases control_publications solver self msg st out h with hnil |
          ⟨d, within, hd, _, _, hst, hout⟩
        · rw [control_matched solver self msg c hhand hm,
            controlAssigned_engaged solver self c hen] at h
          cases hg : gateVerdict solver self c with
          | none =>
            rw [hg] at h
            cases h
          | some within =>
            rw [hg] at h
            simp only [Option.map_some', Option.some.injEq, Prod.mk.injEq] at h
            exact Or.inr (Or.inr ⟨c, within, rfl, hen, h.1.symm, h.2.symm⟩)
        · rw [hm] at hd
          cases hd
          exact Or.inr (Or.inr ⟨c, within, rfl, hen, hst, hout⟩)
  · left
    have hh : self.controller_hand ≠ 1 ∧ self.controller_hand ≠ 2 := by
      simp only [not_or] at hhand
      exact hhand
    unfold control at h
    rw [if_pos hh] at h
    simp only [Option.some.injEq, Prod.mk.injEq] at h
    exact ⟨h.1.symm, h.2.symm⟩

/-- A call of `control` that leaves the arm disengaged sends nothing and
changes at most the clutch fields. -/
theorem control_stays_disengaged (solver : KinematicsBase) (self : RobotArm)
    (msg : ViveSystem) (st : RobotArm) (out : List Publication)
    (h : control solver self msg = some (st, out)) (hdis : st.enabled = false) :
    out = [] ∧
    st.controller_last_pose = self.controller_last_pose ∧
    st.controller_frame_diff_pose = self.controller_frame_diff_pose ∧
    st.initialized = self.initialized ∧
    st.ee_last_valid_pose = self.ee_last_valid_pose ∧
    st.controller_hand = self.controller_hand ∧
    st.joint_position_measured = self.joint_position_measured := by
  rcases control_cases solver self msg st out h with ⟨hst, hout⟩ | ⟨c, _, _, hst, hout⟩ |
    ⟨c, within, _, hen, hst, _⟩
  · subst hst
    exact ⟨hout, rfl, rfl, rfl, rfl, rfl, rfl⟩
  · subst hst
    exact ⟨hout, rfl, rfl, rfl, rfl, rfl, rfl⟩
  · rw [hst, engagedState_enabled, hen] at hdis
    cases hdis

/-- Along a sequence of samples that all leave the arm disengaged, the tracker
and the last valid pose stay as they were. -/
theorem controlTrace_stays_disengaged (solver : KinematicsBase) (msgs : List ViveSystem) :
    ∀ (self : RobotArm) (states : List RobotArm),
      controlTrace solver self msgs = some states →
      (∀ s ∈ states, s.enabled = false) →
      ∀ s ∈ finalState self states :: states,
        s.controller_last_pose = self.controller_last_pose ∧
        s.controller_frame_diff_pose = self.controller_frame_diff_pose ∧
        s.initialized = self.initialized ∧
        s.ee_last_valid_pose = self.ee_last_valid_pose ∧
        s.controller_hand = self.controller_hand ∧
        s.joint_position_measured = self.joint_position_measured := by
  induction msgs with
  | nil =>
    intro self states htr _ s hs
    simp only [controlTrace, Option.some.injEq] at htr
    subst htr
    simp only [finalState, List.mem_singleton] at hs
    subst hs
    exact ⟨rfl, rfl, rfl, rfl, rfl, rfl⟩
  | cons msg rest ih =>
    intro self states htr hdis s hs
    simp only [controlTrace] at htr
    cases hc : control solver self msg with
    | none =>
      rw [hc] at htr
      cases htr
    | some r =>
      rw [hc] at htr
      simp only at htr
      cases ht : controlTrace solver r.1 rest with
      | none =>
        rw [ht] at htr
        cases htr
      | some tail =>
        rw [ht] at htr
        simp only [Option.some.injEq] at htr
        subst htr
        have hr : r.1.enabled = false := hdis r.1 (List.mem_cons_self _ _)
        obtain ⟨_, a1, a2, a3, a4, a5, a6⟩ :=
          control_stays_disengaged solver self msg r.1 r.2 hc hr
        have htail := ih r.1 tail ht (fun t htm => hdis t (List.mem_cons_of_mem _ htm))
        have key : ∀ t ∈ finalState r.1 tail :: tail,
            t.controller_last_pose = self.controller_last_pose ∧
            t.controller_frame_diff_pose = self.controller_frame_diff_pose ∧
            t.initialized = self.initialized ∧
            t.ee_last_valid_pose = self.ee_last_valid_pose ∧
            t.controller_hand = self.controller_hand ∧
            t.joint_position_measured = self.joint_position_measured := by
          intro t htm
          obtain ⟨b1, b2, b3, b4, b5, b6⟩ := htail t htm
          exact ⟨b1.trans a1, b2.trans a2, b3.trans a3, b4.trans a4, b5.trans a5, b6.trans a6⟩
        simp only [finalState, List.mem_cons] at hs
        rcases hs with hs | hs | hs
        · exact key s (by rw [hs]; exact List.mem_cons_self _ _)
        · rw [hs]
          exact ⟨a1, a2, a3, a4, a5, a6⟩
        · exact key s (List.mem_cons_of_mem _ hs)

theorem Matrix3d.mulVec_mulVec (a b : Matrix3d) (v : Vector3d) :
    (a.mul b).mulVec v = a.mulVec (b.mulVec v) := by
  ext <;> simp only [Matrix3d.mul, Matrix3d.mulVec] <;> ring

/-- An invertible matrix sends only the zero vector to zero. -/
theorem Matrix3d.mulVec_sub_eq_zero_iff (a : Matrix3d) (v w : Vector3d)
    (h : a.determinant ≠ 0) : a.mulVec (v.sub w) = Vector3d.zero ↔ v = w := by
  constructor
  · intro h0
    have h1 : a.inverse.mulVec (a.mulVec (v.sub w)) = v.sub w := by
      rw [← Matrix3d.mulVec_mulVec, Matrix3d.inverse_mul_self a h, Matrix3d.Identity_mulVec]
    rw [h0, Matrix3d.mulVec_zero] at h1
    have hx := congrArg Vector3d.x h1
    have hy := congrArg Vector3d.y h1
    have hz := congrArg Vector3d.z h1
    simp only [Vector3d.sub, Vector3d.zero] at hx hy hz
    ext
    · linarith
    · linarith
    · linarith
  · intro hvw
    rw [hvw, Vector3d.sub_self, Matrix3d.mulVec_zero]

/-- C12. Re-engaging the clutch does not re-anchor the tracker. After an
engaged matched sample with controller pose `P`, the samples processed while
the arm is disengaged leave `controller_last_pose`, `controller_frame_diff_pose`
and `initialized = true` unchanged, and on the later matched sample that
re-engages the clutch, the reset button not pressed, the translation delta is
`F * (C.translation - P.translation)` with `F` the stored frame-diff rotation:
the displacement made while disengaged is part of the first target pose, and,
`F` being invertible, the delta is zero only if `C.translation = P.translation`. -/
theorem reengage_keeps_anchor (solver0 solver : KinematicsBase) (self0 self : RobotArm)
    (msg0 msg : ViveSystem) (c0 c : Controller) (out0 : List Publication)
    (msgs : List ViveSystem) (states : List RobotArm)
    (hhand : self0.controller_hand = 1 ∨ self0.controller_hand = 2)
    (hlen : self0.joint_position_measured.length = 7)
    (hm0 : matchedController self0.controller_hand msg0.controllers = some c0)
    (hen0 : (toggleActivation self0 c0).enabled = true)
    (h0 : control solver0 self0 msg0 = some (self, out0))
    (htrace : controlTrace solver self msgs = some states)
    (hdis : ∀ s ∈ states, s.enabled = false)
    (hm : matchedController self.controller_hand msg.controllers = some c)
    (hen : (toggleActivation (finalState self states) c).enabled = true)
    (hreset : c.joystick.buttons.getD 1 0 ≠ 2) :
    self.initialized = true ∧
    self.controller_last_pose = poseMsgToEigen c0.pose ∧
    (∀ s ∈ states,
      s.controller_last_pose = self.controller_last_pose ∧
      s.controller_frame_diff_pose = self.controller_frame_diff_pose ∧
      s.initialized = true) ∧
    (deltaPose (finalState self states) c).translation
      = self.controller_frame_diff_pose.linear.mulVec
          ((poseMsgToEigen c.pose).translation.sub (poseMsgToEigen c0.pose).translation) ∧
    (∃ st out, control solver (finalState self states) msg = some (st, out) ∧
      framePoses Frame.ee_target out = [targetPose (finalState self states) c] ∧
      (targetPose (finalState self states) c).translation
        = self.ee_last_valid_pose.translation.add
            (self.controller_frame_diff_pose.linear.mulVec
              ((poseMsgToEigen c.pose).translation.sub
                (poseMsgToEigen c0.pose).translation))) ∧
    (self.controller_frame_diff_pose.linear.determinant ≠ 0 →
      ((deltaPose (finalState self states) c).translation = Vector3d.zero ↔
        (poseMsgToEigen c.pose).translation = (poseMsgToEigen c0.pose).translation)) := by
  obtain ⟨within0, _, hctl0⟩ := control_engaged solver0 self0 msg0 c0 hhand hm0 hen0 hlen
  rw [hctl0] at h0
  simp only [Option.some.injEq, Prod.mk.injEq] at h0
  obtain ⟨hself, _⟩ := h0
  have hinit : self.initialized = true := by
    rw [← hself]
    exact engagedState_initialized solver0 self0 c0
  have hlast : self.controller_last_pose = poseMsgToEigen c0.pose := by
    rw [← hself]
    exact engagedState_controller_last_pose solver0 self0 c0
  have hhand1 : self.controller_hand = 1 ∨ self.controller_hand = 2 := by
    rw [← hself, engagedState_hand]
    exact hhand
  have hlen1 : self.joint_position_measured.length = 7 := by
    rw [← hself, engagedState_measured]
    exact hlen
  have hkeep := controlTrace_stays_disengaged solver msgs self states htrace hdis
  obtain ⟨f1, f2, f3, f4, f5, f6⟩ := hkeep (finalState self states) (List.mem_cons_self _ _)
  have hfinit : (finalState self states).initialized = true := by rw [f3, hinit]
  obtain ⟨k1, k2⟩ := trackedState_keep (finalState self states) c hreset hfinit
  have hdelta : (deltaPose (finalState self states) c).translation
      = self.controller_frame_diff_pose.linear.mulVec
          ((poseMsgToEigen c.pose).translation.sub (poseMsgToEigen c0.pose).translation) := by
    simp only [deltaPose, controllerDeltaPose, k1, k2, f1, f2, hlast]
  have hm' : matchedController (finalState self states).controller_hand msg.controllers
      = some c := by
    rw [f5]
    exact hm
  obtain ⟨within, _, hctl⟩ := control_engaged solver (finalState self states) msg c
    (by rw [f5]; exact hhand1) hm' hen (by rw [f6]; exact hlen1)
  refine ⟨hinit, hlast, ?_, hdelta, ⟨_, _, hctl, ?_, ?_⟩, ?_⟩
  · intro s hs
    obtain ⟨g1, g2, g3, _⟩ := hkeep s (List.mem_cons_of_mem _ hs)
    exact ⟨g1, g2, by rw [g3, hinit]⟩
  · exact framePoses_ee_target_engagedPublications _ _ _ _
  · have ht : (targetPose (finalState self states) c).translation
        = (finalState self states).ee_last_valid_pose.translation.add
            (deltaPose (finalState self states) c).translation := by
      simp only [targetPose, eeTargetPose, trackedState_ee_last_valid_pose]
    rw [ht, hdelta, f4]
  · intro hdet
    rw [hdelta]
    exact Matrix3d.mulVec_sub_eq_zero_iff _ _ _ hdet

theorem control_trackedArm :
    control noSolution engagedArm (sampleOf 1 0)
      = some (trackedArm, engagedPublications noSolution engagedArm (controllerOf 1 0) true) := by
  obtain ⟨within, hw, hctl⟩ := control_engaged noSolution engagedArm (sampleOf 1 0)
    (controllerOf 1 0) (Or.inl rfl) rfl rfl rfl
  rw [gateVerdict_noSolution] at hw
  cases hw
  exact hctl

theorem controlTrace_disengagedSamples :
    controlTrace noSolution trackedArm disengagedSamples = some disengagedStates := by
  have e0 : trackedArm.enabled = true := rfl
  have t0 : trackedArm.trackpad_pressed = false := rfl
  have hh : trackedArm.controller_hand = 1 := rfl
  have s1 : control noSolution trackedArm (sampleOf 2 2)
      = some (toggleActivation trackedArm (controllerOf 2 2), []) :=
    control_disengaged noSolution trackedArm (sampleOf 2 2) (controllerOf 2 2)
      (Or.inl hh) (by rw [hh]; rfl) (by
        rw [toggleActivation_enabled, e0, t0]
        rfl)
  have s2 : control noSolution (toggleActivation trackedArm (controllerOf 2 2)) (sampleOf 3 2)
      = some (toggleActivation (toggleActivation trackedArm (controllerOf 2 2))
          (controllerOf 3 2), []) :=
    control_disengaged noSolution _ (sampleOf 3 2) (controllerOf 3 2)
      (Or.inl hh) (by rw [toggleActivation_hand, hh]; rfl) (by
        simp only [toggleActivation_enabled, toggleActivation_trackpad_pressed, e0, t0]
        rfl)
  have s3 : control noSolution
      (toggleActivation (toggleActivation trackedArm (controllerOf 2 2)) (controllerOf 3 2))
      (sampleOf 3 0)
      = some (toggleActivation
          (toggleActivation (toggleActivation trackedArm (controllerOf 2 2)) (controllerOf 3 2))
          (controllerOf 3 0), []) :=
    control_disengaged noSolution _ (sampleOf 3 0) (controllerOf 3 0)
      (Or.inl hh) (by simp only [toggleActivation_hand, hh]; rfl) (by
        simp only [toggleActivation_enabled, toggleActivation_trackpad_pressed, e0, t0]
        rfl)
  simp only [disengagedSamples, disengagedStates, controlTrace, s1, s2, s3]

theorem disengagedStates_enabled : ∀ s ∈ disengagedStates, s.enabled = false := by
  have e0 : trackedArm.enabled = true := rfl
  have t0 : trackedArm.trackpad_pressed = false := rfl
  intro s hs
  simp only [disengagedStates, List.mem_cons, List.mem_singleton, List.not_mem_nil,
    or_false] at hs
  rcases hs with rfl | rfl | rfl
  · rw [toggleActivation_enabled, e0, t0]
    rfl
  · simp only [toggleActivation_enabled, toggleActivation_trackpad_pressed, e0, t0]
    rfl
  · simp only [toggleActivation_enabled, toggleActivation_trackpad_pressed, e0, t0]
    rfl

/-- Witness of C12: the arm tracked at `(1, 0, 0)` is disengaged, the
controller is carried to `(5, 0, 0)` and the clutch is re-engaged there: the
first translation delta is `(4, 0, 0)`, the whole displacement. -/
theorem reengage_keeps_anchor_witness :
    (engagedArm.controller_hand = 1 ∨ engagedArm.controller_hand = 2) ∧
    engagedArm.joint_position_measured.length = 7 ∧
    matchedController engagedArm.controller_hand (sampleOf 1 0).controllers
      = some (controllerOf 1 0) ∧
    (toggleActivation engagedArm (controllerOf 1 0)).enabled = true ∧
    control noSolution engagedArm (sampleOf 1 0)
      = some (trackedArm, engagedPublications noSolution engagedArm (controllerOf 1 0) true) ∧
    controlTrace noSolution trackedArm disengagedSamples = some disengagedStates ∧
    (∀ s ∈ disengagedStates, s.enabled = false) ∧
    matchedController trackedArm.controller_hand (sampleOf 5 2).controllers
      = some (controllerOf 5 2) ∧
    (toggleActivation (finalState trackedArm disengagedStates) (controllerOf 5 2)).enabled
      = true ∧
    (controllerOf 5 2).joystick.buttons.getD 1 0 ≠ 2 ∧
    (∀ s ∈ disengagedStates,
      s.controller_last_pose = trackedArm.controller_last_pose ∧
      s.controller_frame_diff_pose = trackedArm.controller_frame_diff_pose ∧
      s.initialized = true) ∧
    (deltaPose (finalState trackedArm disengagedStates) (controllerOf 5 2)).translation
      = ⟨4, 0, 0⟩ ∧
    ∃ st out, control noSolution (finalState trackedArm disengagedStates) (sampleOf 5 2)
        = some (st, out) ∧
      framePoses Frame.ee_target out
        = [targetPose (finalState trackedArm disengagedStates) (controllerOf 5 2)] := by
  have hen : (toggleActivation (finalState trackedArm disengagedStates)
      (controllerOf 5 2)).enabled = true := by
    have e0 : trackedArm.enabled = true := rfl
    have t0 : trackedArm.trackpad_pressed = false := rfl
    simp only [finalState, disengagedStates, toggleActivation_enabled,
      toggleActivation_trackpad_pressed, e0, t0]
    rfl
  have hreset : (controllerOf 5 2).joystick.buttons.getD 1 0 ≠ 2 := by
    simp [controllerOf]
  obtain ⟨_, _, h3, h4, ⟨st, out, h5, h6, _⟩, _⟩ :=
    reengage_keeps_anchor noSolution noSolution engagedArm trackedArm (sampleOf 1 0)
      (sampleOf 5 2) (controllerOf 1 0) (controllerOf 5 2) _ disengagedSamples disengagedStates
      (Or.inl rfl) rfl rfl rfl control_trackedArm controlTrace_disengagedSamples
      disengagedStates_enabled rfl hen hreset
  have hd : (deltaPose (finalState trackedArm disengagedStates) (controllerOf 5 2)).translation
      = ⟨4, 0, 0⟩ := by
    rw [h4]
    have hF : trackedArm.controller_frame_diff_pose.linear = Matrix3d.Identity := by
      simp only [trackedArm, engagedState_frame_diff]
      rfl
    rw [hF, Matrix3d.Identity_mulVec, poseMsgToEigen_eq, poseMsgToEigen_eq]
    simp only [controllerOf, pointMsgToEigen, Vector3d.sub]
    norm_num
  exact ⟨Or.inl rfl, rfl, rfl, rfl, control_trackedArm, controlTrace_disengagedSamples,
    disengagedStates_enabled, rfl, hen, hreset, h3, hd, st, out, h5, h6⟩

end ViveTeleop
